import Mathlib

/-!
Shallow embedding of the `fuel_fraction` repository (files `material_data.py`,
`mcnp_inputs.py`, `cooled_cyl.py`).

Python floats are modelled as exact rationals (`ℚ`); the arithmetic performed by
the program (a handful of multiplications, additions and divisions) keeps
floating-point error near 1e-16, far below every tolerance stated in the spec,
so the rational model is faithful for the claims under study.  Python dicts are
modelled as association lists in insertion order; Python runtime exceptions are
modelled by an explicit error type threaded through `Except`.
-/

namespace FuelFraction

/-- Python runtime errors that the modelled code can raise. -/
inductive PyErr where
  | keyError
  | zeroDivisionError
  | unboundLocalError
  | indexError
  | fileNotFoundError
  | attributeError
  | valueError
  deriving DecidableEq, Repr

/-- `isOkE r` is `true` iff the modelled Python call returned normally
(no exception was raised). -/
def isOkE {α β : Type} : Except α β → Bool
  | .ok _ => true
  | .error _ => false

/-- Python dict read `d[k]`, returning `none` when the key is absent
(the caller turns that into a `KeyError` where Python would raise one). -/
def dget {α β : Type} [DecidableEq α] : List (α × β) → α → Option β
  | [], _ => none
  | (k, v) :: rest, a => if k = a then some v else dget rest a

/-- Python dict assignment `d[k] = v`: replace the value of an existing key in
place, otherwise append the new key at the end (insertion order). -/
def dset {α β : Type} [DecidableEq α] : List (α × β) → α → β → List (α × β)
  | [], k, v => [(k, v)]
  | (k', v') :: rest, k, v =>
      if k' = k then (k, v) :: rest else (k', v') :: dset rest k v

/-- Python `d[k] += v` when `k` may be absent: add to the existing entry,
otherwise append `(k, v)` at the end.  This is the per-isotope step of
`merge_comps` in `mcnp_inputs.py`. -/
def dadd {α : Type} [DecidableEq α] : List (α × ℚ) → α → ℚ → List (α × ℚ)
  | [], k, v => [(k, v)]
  | (k', v') :: rest, k, v =>
      if k' = k then (k', v' + v) :: rest else (k', v') :: dadd rest k v

/-- `merge_comps` from `mcnp_inputs.py`: fold composition `compB` into `compA`,
adding mass fractions of isotopes already present and appending new isotopes. -/
def merge_comps (compA compB : List (ℕ × ℚ)) : List (ℕ × ℚ) :=
  compB.foldl (fun acc p => dadd acc p.1 p.2) compA

/-- `rhos` from `material_data.py`: reference densities. -/
def rhos : List (String × ℚ) :=
  [("UO2", 1097/100), ("W", 193/10), ("UN", 113/10)]

/-- `mats` from `material_data.py`: isotopic mass-fraction templates. -/
def mats : List (String × List (ℕ × ℚ)) :=
  [("UO2", [(8016, 15204/100000), (92000, 84796/100000)]),
   ("UN", [(92000, 94441/100000), (7015, 5559/100000)]),
   ("CO2", [(6000, 27291/100000), (8016, 72709/100000)]),
   ("W", [(74180, 11746/10000000), (74182, 26227/100000), (74183, 14241/100000),
          (74184, 30658/100000), (74186, 28757/100000)]),
   ("H2O", [(1001, 11187/100000), (1002, 25713/1000000000), (8016, 88811/100000)])]

/-- Molar-mass constant `mmO = 32` from `enrich_fuel`. -/
def mmO : ℚ := 32

/-- Molar-mass constant `mmN = 14.0067` from `enrich_fuel`. -/
def mmN : ℚ := 140067/10000

/-- Molar-mass constant `mmU25 = 235.04` from `enrich_fuel`. -/
def mmU25 : ℚ := 23504/100

/-- Molar-mass constant `mmU28 = 238.05` from `enrich_fuel`. -/
def mmU28 : ℚ := 23805/100

/-- `enrich_fuel` from `material_data.py`.  Builds the enriched composition by
replacing the natural-uranium entry `92000` with `92235`/`92238` scaled by
`enrich` and `1 - enrich`, then computes the effective molar mass; for a fuel
identifier other than `"UN"`/`"UO2"` the local `mmfuel` is never assigned and
the `return` raises `UnboundLocalError`. -/
def enrich_fuel (enrich : ℚ) (fuel : String) : Except PyErr (List (ℕ × ℚ) × ℚ) :=
  match dget mats fuel with
  | none => .error .keyError
  | some tmpl =>
    let fuel_comp := tmpl.foldl (fun acc p =>
      if p.1 = 92000 then
        dset (dset acc 92235 (p.2 * enrich)) 92238 (p.2 * (1 - enrich))
      else
        dset acc p.1 p.2) []
    if fuel = "UN" then
      let d := enrich / mmU25 + (1 - enrich) / mmU28
      if d = 0 then .error .zeroDivisionError else .ok (fuel_comp, mmN + 1 / d)
    else if fuel = "UO2" then
      let d := enrich / mmU25 + (1 - enrich) / mmU28
      if d = 0 then .error .zeroDivisionError else .ok (fuel_comp, mmO + 1 / d)
    else .error .unboundLocalError

/-- Round to the nearest integer, ties to the even integer (Python's `round`). -/
def round_half_even (q : ℚ) : ℤ :=
  let f := ⌊q⌋
  let r := q - f
  if r < 1/2 then f
  else if 1/2 < r then f + 1
  else if f % 2 = 0 then f else f + 1

/-- Python `round(x, 5)`: round to 5 decimal places, ties to even. -/
def pyround5 (q : ℚ) : ℚ := (round_half_even (q * 100000) : ℚ) / 100000

/-- The attribute state of a `HomogeneousInput` object (`mcnp_inputs.py`).
Attributes that `__init__` does not set (`rho`, `MM_fuel`, `fuel_string`)
are `none` until the corresponding method assigns them. -/
structure HomogeneousInput where
  z : ℚ
  r : ℚ
  vfrac_fuel : ℚ
  t_refl : ℚ
  rho : Option ℚ
  MM_fuel : Option ℚ
  fuel_string : Option String
  deriving DecidableEq, Repr

/-- `HomogeneousInput.__init__(radius, length, vfrac_fuel, refl_t)`. -/
def HomogeneousInput.init (radius length vfrac_fuel refl_t : ℚ) : HomogeneousInput :=
  { z := length, r := radius, vfrac_fuel := vfrac_fuel, t_refl := refl_t,
    rho := none, MM_fuel := none, fuel_string := none }

/-- Python truthiness of the `matr` argument (`if matr:`): `None` and the
empty string are falsy, every other string is truthy. -/
def truthy : Option String → Bool
  | none => false
  | some s => if s = "" then false else true

/-- `HomogeneousInput.homog_core` from `mcnp_inputs.py`.  Computes the partial
densities, the smeared density `rho` (rounded to 5 decimals), the enriched fuel
composition, then merges the per-material normalized compositions.  The
parameters `r_cool` and `c` are accepted but never used, exactly as in the
source.  Failure points, in source order: `KeyError` on an unknown matrix or
fuel density key, errors from `enrich_fuel`, `ZeroDivisionError` when the
rounded smeared density is zero, `KeyError` on an unknown coolant or matrix
composition key. -/
def HomogeneousInput.homog_core (self : HomogeneousInput) (fuel cool : String)
    (matr : Option String) (enrich r_cool rho_cool c : ℚ) :
    Except PyErr (HomogeneousInput × List (ℕ × ℚ)) :=
  let matr_frac : ℚ := if truthy matr then 3/5 else 1
  let mmatr : Except PyErr ℚ :=
    if truthy matr then
      match dget rhos (matr.getD "") with
      | none => .error .keyError
      | some rhom => .ok (self.vfrac_fuel * rhom * (1 - matr_frac))
    else .ok 0
  match mmatr with
  | .error e => .error e
  | .ok mfrac_matr =>
    match dget rhos fuel with
    | none => .error .keyError
    | some rhof =>
      let mfrac_fuel := self.vfrac_fuel * rhof * matr_frac
      let mfrac_cool := (1 - self.vfrac_fuel) * rho_cool
      let rho := pyround5 (mfrac_fuel + mfrac_cool + mfrac_matr)
      match enrich_fuel enrich fuel with
      | .error e => .error e
      | .ok (fuel_comp, mm) =>
        if rho = 0 then .error .zeroDivisionError
        else
          match dget mats cool with
          | none => .error .keyError
          | some coolComp =>
            let normed_fuel := fuel_comp.map (fun p => (p.1, p.2 * mfrac_fuel / rho))
            let normed_cool := coolComp.map (fun p => (p.1, p.2 * mfrac_cool / rho))
            if truthy matr then
              match dget mats (matr.getD "") with
              | none => .error .keyError
              | some matrComp =>
                let normed_matr := matrComp.map (fun p => (p.1, p.2 * mfrac_matr / rho))
                .ok ({ self with rho := some rho, MM_fuel := some mm },
                     merge_comps (merge_comps (merge_comps [] normed_fuel) normed_cool)
                       normed_matr)
            else
              .ok ({ self with rho := some rho, MM_fuel := some mm },
                   merge_comps (merge_comps [] normed_fuel) normed_cool)

/-- Object component of a `homog_core` result: the updated object on success,
the supplied default otherwise. -/
def okSelf (r : Except PyErr (HomogeneousInput × List (ℕ × ℚ)))
    (dflt : HomogeneousInput) : HomogeneousInput :=
  match r with
  | .ok p => p.1
  | .error _ => dflt

/-- Composition component of a `homog_core` result (empty on error). -/
def okComp (r : Except PyErr (HomogeneousInput × List (ℕ × ℚ))) : List (ℕ × ℚ) :=
  match r with
  | .ok p => p.2
  | .error _ => []

/-- Sum of the mass fractions of a composition. -/
def sumComp (l : List (ℕ × ℚ)) : ℚ := (l.map Prod.snd).sum


/-- C10: homog_core modifies only `rho` and `MM_fuel`; the geometry fields
`z`, `r`, `vfrac_fuel`, `t_refl` (and also `fuel_string`) are unchanged:
on success the returned object agrees with the input object on them; on an
exception the object is returned unchanged as the supplied default. -/
theorem c10_frame (self : HomogeneousInput) (fuel cool : String)
    (matr : Option String) (enrich r_cool rho_cool c : ℚ) :
    (okSelf (self.homog_core fuel cool matr enrich r_cool rho_cool c) self).z = self.z ∧
    (okSelf (self.homog_core fuel cool matr enrich r_cool rho_cool c) self).r = self.r ∧
    (okSelf (self.homog_core fuel cool matr enrich r_cool rho_cool c) self).vfrac_fuel
      = self.vfrac_fuel ∧
    (okSelf (self.homog_core fuel cool matr enrich r_cool rho_cool c) self).t_refl
      = self.t_refl ∧
    (okSelf (self.homog_core fuel cool matr enrich r_cool rho_cool c) self).fuel_string
      = self.fuel_string := by
  unfold okSelf
  split
  next p heq =>
    simp only [HomogeneousInput.homog_core] at heq
    repeat' split at heq
    all_goals cases heq
    all_goals simp
  next => simp

/-- C9: for a fuel identifier other than `"UN"` and `"UO2"`, `enrich_fuel`
raises (KeyError for unknown identifiers, otherwise UnboundLocalError because
`mmfuel` is never assigned); it never returns normally. -/
theorem c9_unknown_fuel_fails (e : ℚ) (fuel : String)
    (h1 : fuel ≠ "UN") (h2 : fuel ≠ "UO2") :
    isOkE (enrich_fuel e fuel) = false := by
  unfold enrich_fuel
  cases h : dget mats fuel with
  | none => rfl
  | some tmpl => simp [h1, h2, isOkE]

/-- C9 witness: `enrich_fuel` fails on the fuel identifier `"W"`. -/
theorem c9_witness : isOkE (enrich_fuel (1/2) "W") = false :=
  c9_unknown_fuel_fails (1/2) "W" (by decide) (by decide)



/-- The uranium molar-mass denominator `enrich/mmU25 + (1-enrich)/mmU28` is
positive for `0 ≤ enrich ≤ 1` is not needed; positivity holds already for
`0 ≤ enrich`. -/
lemma mm_denom_pos (e : ℚ) (he : 0 ≤ e) : 0 < e / mmU25 + (1 - e) / mmU28 := by
  have h1 : e / mmU25 + (1 - e) / mmU28 = e * (1/mmU25 - 1/mmU28) + 1/mmU28 := by
    unfold mmU25 mmU28; ring
  rw [h1]
  have h2 : (0:ℚ) < 1/mmU28 := by unfold mmU28; norm_num
  have h3 : (0:ℚ) < 1/mmU25 - 1/mmU28 := by unfold mmU25 mmU28; norm_num
  nlinarith

/-- Evaluation of `enrich_fuel` on `"UO2"` for a nonzero molar-mass denominator. -/
lemma enrich_fuel_UO2 (e : ℚ) (hd : e / mmU25 + (1 - e) / mmU28 ≠ 0) :
    enrich_fuel e "UO2" =
      .ok ([(8016, 15204/100000), (92235, 84796/100000 * e),
            (92238, 84796/100000 * (1 - e))],
           mmO + 1 / (e / mmU25 + (1 - e) / mmU28)) := by
  show (if e / mmU25 + (1 - e) / mmU28 = 0 then Except.error PyErr.zeroDivisionError
        else Except.ok ([(8016, 15204/100000), (92235, 84796/100000 * e),
              (92238, 84796/100000 * (1 - e))],
             mmO + 1 / (e / mmU25 + (1 - e) / mmU28))) = _
  rw [if_neg hd]

/-- Evaluation of `enrich_fuel` on `"UN"` for a nonzero molar-mass denominator. -/
lemma enrich_fuel_UN (e : ℚ) (hd : e / mmU25 + (1 - e) / mmU28 ≠ 0) :
    enrich_fuel e "UN" =
      .ok ([(92235, 94441/100000 * e), (92238, 94441/100000 * (1 - e)),
            (7015, 5559/100000)],
           mmN + 1 / (e / mmU25 + (1 - e) / mmU28)) := by
  show (if e / mmU25 + (1 - e) / mmU28 = 0 then Except.error PyErr.zeroDivisionError
        else Except.ok ([(92235, 94441/100000 * e), (92238, 94441/100000 * (1 - e)),
              (7015, 5559/100000)],
             mmN + 1 / (e / mmU25 + (1 - e) / mmU28))) = _
  rw [if_neg hd]

/-- C6: for any enrichment in (0,1), `enrich_fuel e "UO2"` splits the
template's single natural-uranium entry 8.4796e-01 into U-235 and U-238 in the
exact ratio `e : (1-e)`, summing exactly to the template entry, and carries the
non-uranium isotope 8016 over unchanged. -/
theorem c6_enrich_split (e : ℚ) (h0 : 0 < e) (h1 : e < 1) :
    (∃ mm, enrich_fuel e "UO2" =
      .ok ([(8016, 15204/100000), (92235, 84796/100000 * e),
            (92238, 84796/100000 * (1 - e))], mm)) ∧
    84796/100000 * e + 84796/100000 * (1 - e) = (84796/100000 : ℚ) ∧
    dget [(8016, (15204/100000 : ℚ)), (92000, 84796/100000)] 8016
      = some (15204/100000 : ℚ) := by
  refine ⟨⟨mmO + 1 / (e / mmU25 + (1 - e) / mmU28), ?_⟩, by ring, rfl⟩
  exact enrich_fuel_UO2 e (ne_of_gt (mm_denom_pos e h0.le))

/-- C6 witness: concrete instance at enrichment 0.93. -/
theorem c6_witness :
    (0:ℚ) < 93/100 ∧ (93/100 : ℚ) < 1 ∧
    ((∃ mm, enrich_fuel (93/100) "UO2" =
      .ok ([(8016, 15204/100000), (92235, 84796/100000 * (93/100)),
            (92238, 84796/100000 * (1 - 93/100))], mm)) ∧
    84796/100000 * (93/100) + 84796/100000 * (1 - 93/100) = (84796/100000 : ℚ) ∧
    dget [(8016, (15204/100000 : ℚ)), (92000, 84796/100000)] 8016
      = some (15204/100000 : ℚ)) :=
  ⟨by norm_num, by norm_num, c6_enrich_split (93/100) (by norm_num) (by norm_num)⟩



/-- Rounding half-to-even differs from the true value by at most 1/2. -/
lemma round_half_even_close (q : ℚ) : |(round_half_even q : ℚ) - q| ≤ 1/2 := by
  simp only [round_half_even]
  have h0 : (⌊q⌋ : ℚ) ≤ q := Int.floor_le q
  have h1 : q - 1 < ⌊q⌋ := by
    have := Int.lt_floor_add_one q
    linarith
  split
  next h => rw [abs_sub_comm]; rw [abs_of_nonneg (by linarith)]; linarith
  next h =>
    push_neg at h
    split
    next h2 => rw [abs_of_nonneg (by push_cast; linarith)]; push_cast; linarith
    next h2 =>
      push_neg at h2
      have heq : q - (⌊q⌋ : ℚ) = 1/2 := le_antisymm h2 h
      split
      next => rw [abs_sub_comm, abs_of_nonneg (by linarith)]; linarith
      next => rw [abs_of_nonneg (by push_cast; linarith)]; push_cast; linarith

/-- `pyround5` differs from its argument by at most half of the last kept
decimal place, i.e. by at most `1/200000`. -/
lemma pyround5_close (q : ℚ) : |pyround5 q - q| ≤ 1/200000 := by
  unfold pyround5
  have h := round_half_even_close (q * 100000)
  have h2 : (round_half_even (q * 100000) : ℚ) / 100000 - q
      = ((round_half_even (q * 100000) : ℚ) - q * 100000) / 100000 := by ring
  rw [h2, abs_div]
  rw [abs_of_pos (by norm_num : (0:ℚ) < 100000)]
  rw [div_le_iff₀ (by norm_num : (0:ℚ) < 100000)]
  linarith

/-- Sum of mass fractions after a dict-add step. -/
lemma sumComp_dadd (l : List (ℕ × ℚ)) (k : ℕ) (v : ℚ) :
    sumComp (dadd l k v) = sumComp l + v := by
  induction l with
  | nil => simp [dadd, sumComp]
  | cons p rest ih =>
    obtain ⟨k', v'⟩ := p
    unfold dadd
    split
    · simp [sumComp]; ring
    · simp only [sumComp, List.map_cons, List.sum_cons] at ih ⊢
      rw [ih]; ring

/-- Merging compositions adds their mass-fraction sums. -/
lemma sumComp_merge (a b : List (ℕ × ℚ)) :
    sumComp (merge_comps a b) = sumComp a + sumComp b := by
  induction b generalizing a with
  | nil => simp [merge_comps, sumComp]
  | cons p rest ih =>
    obtain ⟨k, v⟩ := p
    unfold merge_comps at ih ⊢
    simp only [List.foldl_cons]
    rw [ih, sumComp_dadd]
    simp only [sumComp, List.map_cons, List.sum_cons]
    ring

/-- Scaling every mass fraction scales the sum. -/
lemma sumComp_scale (l : List (ℕ × ℚ)) (m r : ℚ) :
    sumComp (l.map (fun p => (p.1, p.2 * m / r))) = sumComp l * m / r := by
  induction l with
  | nil => simp [sumComp]
  | cons p rest ih =>
    simp only [sumComp, List.map_cons, List.sum_cons] at ih ⊢
    rw [ih]; ring

/-- Evaluation of `homog_core` without a matrix material, given successful
lookups and a nonzero rounded smeared density. -/
lemma homog_core_noMatr (self : HomogeneousInput) (fuel cool : String)
    (enrich r_cool rho_cool c : ℚ) (rhof : ℚ) (coolComp : List (ℕ × ℚ))
    (fc : List (ℕ × ℚ)) (mm : ℚ)
    (hf : dget rhos fuel = some rhof)
    (he : enrich_fuel enrich fuel = .ok (fc, mm))
    (hcool : dget mats cool = some coolComp)
    (hrho : pyround5 (self.vfrac_fuel * rhof * 1 + (1 - self.vfrac_fuel) * rho_cool + 0) ≠ 0) :
    self.homog_core fuel cool none enrich r_cool rho_cool c =
      .ok ({ self with
              rho := some (pyround5 (self.vfrac_fuel * rhof * 1
                + (1 - self.vfrac_fuel) * rho_cool + 0)),
              MM_fuel := some mm },
           merge_comps
             (merge_comps []
               (fc.map (fun p => (p.1, p.2 * (self.vfrac_fuel * rhof * 1)
                 / pyround5 (self.vfrac_fuel * rhof * 1
                     + (1 - self.vfrac_fuel) * rho_cool + 0)))))
             (coolComp.map (fun p => (p.1, p.2 * ((1 - self.vfrac_fuel) * rho_cool)
                 / pyround5 (self.vfrac_fuel * rhof * 1
                     + (1 - self.vfrac_fuel) * rho_cool + 0))))) := by
  simp only [HomogeneousInput.homog_core, truthy, Bool.false_eq_true, if_false, hf, he, hcool]
  rw [if_neg hrho]



/-- C8 counterexample: with `volumeFractionFuel = 2` and `enrichment = 3/2`,
both outside `(0,1)`, `homog_core` does not fail with any error — there is no
domain validation anywhere in the code — contradicting the claim that such
calls fail with a DomainError. -/
theorem c8_counterexample :
    isOkE ((HomogeneousInput.init 30 30 2 15).homog_core "UO2" "CO2" none
      (3/2) (1/2) (23389/100000) (31/1000)) = true := by
  have hd : (3/2 : ℚ) / mmU25 + (1 - 3/2) / mmU28 ≠ 0 := by
    unfold mmU25 mmU28; norm_num
  have hx : ((HomogeneousInput.init 30 30 2 15).vfrac_fuel * (1097/100) * 1
      + (1 - (HomogeneousInput.init 30 30 2 15).vfrac_fuel) * (23389/100000) + 0 : ℚ)
      = 2170611/100000 := by
    simp [HomogeneousInput.init]; norm_num
  have hrho : pyround5 ((HomogeneousInput.init 30 30 2 15).vfrac_fuel * (1097/100) * 1
      + (1 - (HomogeneousInput.init 30 30 2 15).vfrac_fuel) * (23389/100000) + 0) ≠ 0 := by
    rw [hx]
    have := pyround5_close (2170611/100000)
    intro h
    rw [h] at this
    rw [abs_sub_comm, abs_of_nonneg (by norm_num)] at this
    norm_num at this
  rw [homog_core_noMatr (HomogeneousInput.init 30 30 2 15) "UO2" "CO2"
      (3/2) (1/2) (23389/100000) (31/1000) (1097/100)
      [(6000, 27291/100000), (8016, 72709/100000)]
      [(8016, 15204/100000), (92235, 84796/100000 * (3/2)),
        (92238, 84796/100000 * (1 - 3/2))]
      (mmO + 1 / (3/2 / mmU25 + (1 - 3/2) / mmU28))
      rfl (enrich_fuel_UO2 (3/2) hd) rfl hrho]
  rfl

/-- C8 amended: `homog_core` performs no domain validation: for any positive
volume fraction (including values at or above 1) and any nonnegative
enrichment (including values at or above 1) it returns normally for the
UO2/CO2 configuration used by the sweep driver; no DomainError is ever
raised before (or instead of) spawning the solver. -/
theorem c8_amended_no_domain_check (self : HomogeneousInput) (enrich r_cool c : ℚ)
    (hv : 0 < self.vfrac_fuel) (he : 0 ≤ enrich) :
    isOkE (self.homog_core "UO2" "CO2" none enrich r_cool (23389/100000) c) = true := by
  have hd := (mm_denom_pos enrich he).ne'
  have hxlb : (23389/100000 : ℚ) ≤ self.vfrac_fuel * (1097/100) * 1
      + (1 - self.vfrac_fuel) * (23389/100000) + 0 := by nlinarith
  have hrho : pyround5 (self.vfrac_fuel * (1097/100) * 1
      + (1 - self.vfrac_fuel) * (23389/100000) + 0) ≠ 0 := by
    have hcl := pyround5_close (self.vfrac_fuel * (1097/100) * 1
      + (1 - self.vfrac_fuel) * (23389/100000) + 0)
    intro h
    rw [h] at hcl
    rw [abs_sub_comm, abs_of_nonneg (by linarith)] at hcl
    linarith
  rw [homog_core_noMatr self "UO2" "CO2" enrich r_cool (23389/100000) c (1097/100)
      [(6000, 27291/100000), (8016, 72709/100000)]
      [(8016, 15204/100000), (92235, 84796/100000 * enrich),
        (92238, 84796/100000 * (1 - enrich))]
      (mmO + 1 / (enrich / mmU25 + (1 - enrich) / mmU28))
      rfl (enrich_fuel_UO2 enrich hd) rfl hrho]
  rfl

/-- C8 amended witness: concrete instance, volume fraction 2 and enrichment 2. -/
theorem c8_amended_witness :
    (0:ℚ) < (HomogeneousInput.init 30 30 2 15).vfrac_fuel ∧ (0:ℚ) ≤ 2 ∧
    isOkE ((HomogeneousInput.init 30 30 2 15).homog_core "UO2" "CO2" none
      2 (1/2) (23389/100000) (31/1000)) = true :=
  ⟨by norm_num [HomogeneousInput.init], by norm_num,
   c8_amended_no_domain_check (HomogeneousInput.init 30 30 2 15) 2 (1/2) (31/1000)
     (by norm_num [HomogeneousInput.init]) (by norm_num)⟩



/-- C5: on every successful call, `homog_core` stores as `rho` the smeared
density `fuel_partial + coolant_partial + matrix_partial` rounded to 5 decimal
places, where `fuel_partial = vfrac_fuel * fuelDensity * matrixSplit`,
`coolant_partial = (1 - vfrac_fuel) * rho_cool`, and
`matrix_partial = vfrac_fuel * matrixDensity * (1 - matrixSplit)` when a matrix
is present and `0` otherwise, with `matrixSplit = 3/5` whenever a matrix is
present (independent of the volume fraction) and `1` otherwise. -/
theorem c5_smeared_density (self : HomogeneousInput) (fuel cool : String)
    (matr : Option String) (enrich r_cool rho_cool c rhof rhom : ℚ)
    (hf : dget rhos fuel = some rhof)
    (hm : if truthy matr then dget rhos (matr.getD "") = some rhom else rhom = 0)
    (hok : isOkE (self.homog_core fuel cool matr enrich r_cool rho_cool c) = true) :
    (okSelf (self.homog_core fuel cool matr enrich r_cool rho_cool c) self).rho =
      some (pyround5 (self.vfrac_fuel * rhof * (if truthy matr then 3/5 else 1)
        + (1 - self.vfrac_fuel) * rho_cool
        + (if truthy matr then self.vfrac_fuel * rhom * (1 - 3/5) else 0))) := by
  unfold okSelf
  split
  next p heq =>
    simp only [HomogeneousInput.homog_core, hf] at heq
    cases htm : truthy matr
    · simp only [htm, Bool.false_eq_true, if_false] at heq hm ⊢
      subst hm
      repeat' split at heq
      all_goals cases heq
      all_goals simp
    · simp only [htm, if_true] at heq hm ⊢
      simp only [hm] at heq
      repeat' split at heq
      all_goals cases heq
      all_goals simp
  next e heq =>
    rw [heq] at hok
    simp [isOkE] at hok

/-- Evaluation of `homog_core` with a matrix material, given successful
lookups and a nonzero rounded smeared density. -/
lemma homog_core_withMatr (self : HomogeneousInput) (fuel cool m : String)
    (enrich r_cool rho_cool c : ℚ) (rhof rhom : ℚ)
    (coolComp matrComp fc : List (ℕ × ℚ)) (mm : ℚ)
    (hms : m ≠ "")
    (hmr : dget rhos m = some rhom)
    (hf : dget rhos fuel = some rhof)
    (he : enrich_fuel enrich fuel = .ok (fc, mm))
    (hcool : dget mats cool = some coolComp)
    (hmatr : dget mats m = some matrComp)
    (hrho : pyround5 (self.vfrac_fuel * rhof * (3/5) + (1 - self.vfrac_fuel) * rho_cool
      + self.vfrac_fuel * rhom * (1 - 3/5)) ≠ 0) :
    self.homog_core fuel cool (some m) enrich r_cool rho_cool c =
      .ok ({ self with
              rho := some (pyround5 (self.vfrac_fuel * rhof * (3/5)
                + (1 - self.vfrac_fuel) * rho_cool
                + self.vfrac_fuel * rhom * (1 - 3/5))),
              MM_fuel := some mm },
           merge_comps (merge_comps
             (merge_comps []
               (fc.map (fun p => (p.1, p.2 * (self.vfrac_fuel * rhof * (3/5))
                 / pyround5 (self.vfrac_fuel * rhof * (3/5)
                     + (1 - self.vfrac_fuel) * rho_cool
                     + self.vfrac_fuel * rhom * (1 - 3/5))))))
             (coolComp.map (fun p => (p.1, p.2 * ((1 - self.vfrac_fuel) * rho_cool)
                 / pyround5 (self.vfrac_fuel * rhof * (3/5)
                     + (1 - self.vfrac_fuel) * rho_cool
                     + self.vfrac_fuel * rhom * (1 - 3/5))))))
             (matrComp.map (fun p => (p.1, p.2 * (self.vfrac_fuel * rhom * (1 - 3/5))
                 / pyround5 (self.vfrac_fuel * rhof * (3/5)
                     + (1 - self.vfrac_fuel) * rho_cool
                     + self.vfrac_fuel * rhom * (1 - 3/5)))))) := by
  have htm : truthy (some m) = true := by
    simp only [truthy]
    rw [if_neg hms]
  simp only [HomogeneousInput.homog_core, htm, if_true, Option.getD, hmr, hf, he, hcool, hmatr]
  rw [if_neg hrho]

/-- C5 witness: the configuration of `mcnp_inputs.__main__` (UN fuel, CO2
coolant, W matrix, volume fraction 0.9): the stored smeared density matches
the spec formula with the fixed 60/40 fuel/matrix split. -/
theorem c5_witness :
    (okSelf ((HomogeneousInput.init 30 30 (9/10) 15).homog_core "UN" "CO2" (some "W")
        (93/100) (1/2) (79082/1000000) (31/1000)) (HomogeneousInput.init 30 30 (9/10) 15)).rho =
      some (pyround5 ((HomogeneousInput.init 30 30 (9/10) 15).vfrac_fuel * (113/10)
        * (if truthy (some "W") then 3/5 else 1)
        + (1 - (HomogeneousInput.init 30 30 (9/10) 15).vfrac_fuel) * (79082/1000000)
        + (if truthy (some "W") then
            (HomogeneousInput.init 30 30 (9/10) 15).vfrac_fuel * (193/10) * (1 - 3/5)
          else 0))) := by
  have hd : (93/100 : ℚ) / mmU25 + (1 - 93/100) / mmU28 ≠ 0 := by
    unfold mmU25 mmU28; norm_num
  have hrho : pyround5 ((9/10 : ℚ) * (113/10) * (3/5) + (1 - 9/10) * (79082/1000000)
      + (9/10) * (193/10) * (1 - 3/5)) ≠ 0 := by
    have hx : ((9/10 : ℚ) * (113/10) * (3/5) + (1 - 9/10) * (79082/1000000)
        + (9/10) * (193/10) * (1 - 3/5)) = 130579082/10000000 := by norm_num
    rw [hx]
    have hcl := pyround5_close (130579082/10000000)
    intro h
    rw [h] at hcl
    rw [abs_sub_comm, abs_of_nonneg (by norm_num)] at hcl
    norm_num at hcl
  have hok : isOkE ((HomogeneousInput.init 30 30 (9/10) 15).homog_core "UN" "CO2" (some "W")
      (93/100) (1/2) (79082/1000000) (31/1000)) = true := by
    rw [homog_core_withMatr (HomogeneousInput.init 30 30 (9/10) 15) "UN" "CO2" "W"
      (93/100) (1/2) (79082/1000000) (31/1000) (113/10) (193/10)
      [(6000, 27291/100000), (8016, 72709/100000)]
      [(74180, 11746/10000000), (74182, 26227/100000), (74183, 14241/100000),
        (74184, 30658/100000), (74186, 28757/100000)]
      [(92235, 94441/100000 * (93/100)), (92238, 94441/100000 * (1 - 93/100)),
        (7015, 5559/100000)]
      (mmN + 1 / (93/100 / mmU25 + (1 - 93/100) / mmU28))
      (by decide) rfl rfl (enrich_fuel_UN (93/100) hd) rfl rfl hrho]
    rfl
  exact c5_smeared_density (HomogeneousInput.init 30 30 (9/10) 15) "UN" "CO2" (some "W")
    (93/100) (1/2) (79082/1000000) (31/1000) (113/10) (193/10) rfl rfl hok



/-- The empty composition sums to zero. -/
lemma sumComp_nil : sumComp ([] : List (ℕ × ℚ)) = 0 := rfl

/-- Core bound for C1: for a matrix-free homogenization whose fuel composition
sums to exactly 1 and whose coolant template sums to `Sc` with
`1 ≤ Sc ≤ 1 + 6e-6`, and with the densities bounded as in the sweep driver's
configurations, the call succeeds and the output mass fractions sum to 1
within 1e-4. -/
lemma c1_core (self : HomogeneousInput) (fuel cool : String)
    (enrich r_cool rho_cool c rhof mm Sc : ℚ)
    (coolComp fc : List (ℕ × ℚ))
    (hf : dget rhos fuel = some rhof)
    (he : enrich_fuel enrich fuel = .ok (fc, mm))
    (hc : dget mats cool = some coolComp)
    (hfc : sumComp fc = 1)
    (hSc : sumComp coolComp = Sc)
    (hSc1 : 1 ≤ Sc) (hSc2 : Sc ≤ 1 + 6/1000000)
    (hrf : 12348/100000 ≤ rhof)
    (hrc1 : 12348/100000 ≤ rho_cool) (hrc2 : rho_cool ≤ 23389/100000)
    (hv0 : 0 < self.vfrac_fuel) (hv1 : self.vfrac_fuel < 1) :
    isOkE (self.homog_core fuel cool none enrich r_cool rho_cool c) = true ∧
    |sumComp (okComp (self.homog_core fuel cool none enrich r_cool rho_cool c)) - 1|
      ≤ 1/10000 := by
  have ha1 : 0 ≤ self.vfrac_fuel * (rhof - 12348/100000) :=
    mul_nonneg hv0.le (by linarith)
  have ha2 : 0 ≤ (1 - self.vfrac_fuel) * (rho_cool - 12348/100000) :=
    mul_nonneg (by linarith) (by linarith)
  have hXlb : 12348/100000 ≤ self.vfrac_fuel * rhof * 1
      + (1 - self.vfrac_fuel) * rho_cool + 0 := by nlinarith
  have hcl := pyround5_close (self.vfrac_fuel * rhof * 1
      + (1 - self.vfrac_fuel) * rho_cool + 0)
  obtain ⟨hcl1, hcl2⟩ := abs_le.1 hcl
  have hplb : 123475/1000000 ≤ pyround5 (self.vfrac_fuel * rhof * 1
      + (1 - self.vfrac_fuel) * rho_cool + 0) := by linarith
  have hppos : 0 < pyround5 (self.vfrac_fuel * rhof * 1
      + (1 - self.vfrac_fuel) * rho_cool + 0) := by linarith
  rw [homog_core_noMatr self fuel cool enrich r_cool rho_cool c rhof coolComp fc mm
      hf he hc (ne_of_gt hppos)]
  refine ⟨rfl, ?_⟩
  simp only [okComp]
  rw [sumComp_merge, sumComp_merge, sumComp_scale, sumComp_scale, hfc, hSc, sumComp_nil]
  have hkey : ∀ rr : ℚ, rr ≠ 0 → (0 + 1 * (self.vfrac_fuel * rhof * 1) / rr
      + Sc * ((1 - self.vfrac_fuel) * rho_cool) / rr - 1)
      = ((self.vfrac_fuel * rhof * 1 + (1 - self.vfrac_fuel) * rho_cool + 0 - rr)
         + (Sc - 1) * ((1 - self.vfrac_fuel) * rho_cool)) / rr := by
    intro rr hrr
    field_simp
    ring
  rw [hkey _ (ne_of_gt hppos), abs_div, abs_of_pos hppos, div_le_iff₀ hppos]
  have hmc0 : 0 ≤ (1 - self.vfrac_fuel) * rho_cool :=
    mul_nonneg (by linarith) (by linarith)
  have hmc1 : (1 - self.vfrac_fuel) * rho_cool ≤ 23389/100000 := by nlinarith
  have hprod0 : 0 ≤ (Sc - 1) * ((1 - self.vfrac_fuel) * rho_cool) :=
    mul_nonneg (by linarith) hmc0
  have hprod1 : (Sc - 1) * ((1 - self.vfrac_fuel) * rho_cool)
      ≤ (6/1000000) * (23389/100000) :=
    mul_le_mul (by linarith) hmc1 hmc0 (by norm_num)
  have htri := abs_add
    (self.vfrac_fuel * rhof * 1 + (1 - self.vfrac_fuel) * rho_cool + 0
      - pyround5 (self.vfrac_fuel * rhof * 1 + (1 - self.vfrac_fuel) * rho_cool + 0))
    ((Sc - 1) * ((1 - self.vfrac_fuel) * rho_cool))
  rw [abs_sub_comm] at hcl
  obtain ⟨hcl3, hcl4⟩ := abs_le.1 hcl
  have habs1 : |self.vfrac_fuel * rhof * 1 + (1 - self.vfrac_fuel) * rho_cool + 0
      - pyround5 (self.vfrac_fuel * rhof * 1 + (1 - self.vfrac_fuel) * rho_cool + 0)|
      ≤ 1/200000 := abs_le.2 ⟨hcl3, hcl4⟩
  have habs2 : |(Sc - 1) * ((1 - self.vfrac_fuel) * rho_cool)|
      = (Sc - 1) * ((1 - self.vfrac_fuel) * rho_cool) := abs_of_nonneg hprod0
  rw [habs2] at htri
  linarith

/-- C1 counterexample: for volume fraction 0.1, fuel UO2, coolant H2O (with
the sweep driver's H2O density 0.12348), enrichment 0.93, `homog_core`
succeeds but the output mass fractions sum to 1 + 2.18e-6: the relative error
exceeds 1e-6, refuting the claimed 1e-6 tolerance. -/
theorem c1_counterexample :
    isOkE ((HomogeneousInput.init 10 10 (1/10) 15).homog_core "UO2" "H2O" none
      (93/100) (1/2) (12348/100000) (31/1000)) = true ∧
    ¬ (|sumComp (okComp ((HomogeneousInput.init 10 10 (1/10) 15).homog_core "UO2" "H2O" none
      (93/100) (1/2) (12348/100000) (31/1000))) - 1| ≤ 1/1000000) := by
  have hd : (93/100 : ℚ) / mmU25 + (1 - 93/100) / mmU28 ≠ 0 := by
    unfold mmU25 mmU28; norm_num
  have hx : ((HomogeneousInput.init 10 10 (1/10) 15).vfrac_fuel * (1097/100) * 1
      + (1 - (HomogeneousInput.init 10 10 (1/10) 15).vfrac_fuel) * (12348/100000) + 0 : ℚ)
      = 1208132/1000000 := by
    show ((1/10 : ℚ)) * (1097/100) * 1 + (1 - 1/10) * (12348/100000) + 0 = 1208132/1000000
    norm_num
  have hround : pyround5 (1208132/1000000) = 120813/100000 := by
    unfold pyround5 round_half_even
    norm_num [Int.floor_eq_iff]
  have hrho : pyround5 ((HomogeneousInput.init 10 10 (1/10) 15).vfrac_fuel * (1097/100) * 1
      + (1 - (HomogeneousInput.init 10 10 (1/10) 15).vfrac_fuel) * (12348/100000) + 0) ≠ 0 := by
    rw [hx, hround]; norm_num
  rw [homog_core_noMatr (HomogeneousInput.init 10 10 (1/10) 15) "UO2" "H2O"
      (93/100) (1/2) (12348/100000) (31/1000) (1097/100)
      [(1001, 11187/100000), (1002, 25713/1000000000), (8016, 88811/100000)]
      [(8016, 15204/100000), (92235, 84796/100000 * (93/100)),
        (92238, 84796/100000 * (1 - 93/100))]
      (mmO + 1 / (93/100 / mmU25 + (1 - 93/100) / mmU28))
      rfl (enrich_fuel_UO2 (93/100) hd) rfl hrho]
  refine ⟨rfl, ?_⟩
  simp only [okComp]
  rw [sumComp_merge, sumComp_merge, sumComp_scale, sumComp_scale, sumComp_nil]
  rw [hx, hround]
  have h1 : sumComp [(8016, (15204/100000 : ℚ)), (92235, 84796/100000 * (93/100)),
      (92238, 84796/100000 * (1 - 93/100))] = 1 := by
    simp [sumComp]; norm_num
  have h2 : sumComp [(1001, (11187/100000 : ℚ)), (1002, 25713/1000000000),
      (8016, 88811/100000)] = 1000005713/1000000000 := by
    simp [sumComp]; norm_num
  rw [h1, h2]
  show ¬ (|0 + 1 * ((HomogeneousInput.init 10 10 (1/10) 15).vfrac_fuel * (1097/100) * 1)
      / (120813/100000)
      + (1000005713/1000000000) * ((1 - (HomogeneousInput.init 10 10 (1/10) 15).vfrac_fuel)
        * (12348/100000)) / (120813/100000) - 1| ≤ 1/1000000)
  show ¬ (|0 + 1 * ((1/10 : ℚ) * (1097/100) * 1) / (120813/100000)
      + (1000005713/1000000000) * ((1 - (1/10 : ℚ)) * (12348/100000)) / (120813/100000) - 1|
      ≤ 1/1000000)
  have hval : (0 + 1 * ((1/10 : ℚ) * (1097/100) * 1) / (120813/100000)
      + (1000005713/1000000000) * ((1 - (1/10 : ℚ)) * (12348/100000)) / (120813/100000) - 1)
      = 658724279/302032500000000 := by norm_num
  rw [hval, abs_of_pos (by norm_num : (0:ℚ) < 658724279/302032500000000)]
  norm_num

/-- C1 amended: for every matrix-free configuration the sweep driver can
produce (fuel UO2 or UN, coolant CO2 with density 0.23389 or H2O with density
0.12348), volume fraction in (0,1) and enrichment in (0,1), `homog_core`
succeeds and the output mass fractions sum to 1 within a relative error of at
most 1e-4 (not 1e-6: rounding the smeared density to 5 decimals and the H2O
template sum of 1.000005713 exceed the claimed 1e-6). -/
theorem c1_amended_sum_bound (self : HomogeneousInput) (fuel cool : String)
    (enrich r_cool rho_cool c : ℚ)
    (hfuel : fuel = "UO2" ∨ fuel = "UN")
    (hcool : (cool = "CO2" ∧ rho_cool = 23389/100000) ∨
             (cool = "H2O" ∧ rho_cool = 12348/100000))
    (hv0 : 0 < self.vfrac_fuel) (hv1 : self.vfrac_fuel < 1)
    (he0 : 0 < enrich) (he1 : enrich < 1) :
    isOkE (self.homog_core fuel cool none enrich r_cool rho_cool c) = true ∧
    |sumComp (okComp (self.homog_core fuel cool none enrich r_cool rho_cool c)) - 1|
      ≤ 1/10000 := by
  have hd := (mm_denom_pos enrich he0.le).ne'
  rcases hfuel with hfu | hfu <;> rcases hcool with ⟨hco, hrc⟩ | ⟨hco, hrc⟩ <;>
    subst hfu <;> subst hco <;> subst hrc
  · exact c1_core self "UO2" "CO2" enrich r_cool (23389/100000) c (1097/100)
      (mmO + 1 / (enrich / mmU25 + (1 - enrich) / mmU28)) 1
      [(6000, 27291/100000), (8016, 72709/100000)]
      [(8016, 15204/100000), (92235, 84796/100000 * enrich),
        (92238, 84796/100000 * (1 - enrich))]
      rfl (enrich_fuel_UO2 enrich hd) rfl
      (by simp [sumComp]; ring) (by simp [sumComp]; norm_num)
      (by norm_num) (by norm_num) (by norm_num) (by norm_num) (by norm_num) hv0 hv1
  · exact c1_core self "UO2" "H2O" enrich r_cool (12348/100000) c (1097/100)
      (mmO + 1 / (enrich / mmU25 + (1 - enrich) / mmU28)) (1000005713/1000000000)
      [(1001, 11187/100000), (1002, 25713/1000000000), (8016, 88811/100000)]
      [(8016, 15204/100000), (92235, 84796/100000 * enrich),
        (92238, 84796/100000 * (1 - enrich))]
      rfl (enrich_fuel_UO2 enrich hd) rfl
      (by simp [sumComp]; ring) (by simp [sumComp]; norm_num)
      (by norm_num) (by norm_num) (by norm_num) (by norm_num) (by norm_num) hv0 hv1
  · exact c1_core self "UN" "CO2" enrich r_cool (23389/100000) c (113/10)
      (mmN + 1 / (enrich / mmU25 + (1 - enrich) / mmU28)) 1
      [(6000, 27291/100000), (8016, 72709/100000)]
      [(92235, 94441/100000 * enrich), (92238, 94441/100000 * (1 - enrich)),
        (7015, 5559/100000)]
      rfl (enrich_fuel_UN enrich hd) rfl
      (by simp [sumComp]; ring) (by simp [sumComp]; norm_num)
      (by norm_num) (by norm_num) (by norm_num) (by norm_num) (by norm_num) hv0 hv1
  · exact c1_core self "UN" "H2O" enrich r_cool (12348/100000) c (113/10)
      (mmN + 1 / (enrich / mmU25 + (1 - enrich) / mmU28)) (1000005713/1000000000)
      [(1001, 11187/100000), (1002, 25713/1000000000), (8016, 88811/100000)]
      [(92235, 94441/100000 * enrich), (92238, 94441/100000 * (1 - enrich)),
        (7015, 5559/100000)]
      rfl (enrich_fuel_UN enrich hd) rfl
      (by simp [sumComp]; ring) (by simp [sumComp]; norm_num)
      (by norm_num) (by norm_num) (by norm_num) (by norm_num) (by norm_num) hv0 hv1

/-- C1 amended witness: concrete instance at volume fraction 0.5, UO2/CO2,
enrichment 0.93. -/
theorem c1_amended_witness :
    isOkE ((HomogeneousInput.init 20 20 (1/2) 15).homog_core "UO2" "CO2" none
      (93/100) (1/2) (23389/100000) (31/1000)) = true ∧
    |sumComp (okComp ((HomogeneousInput.init 20 20 (1/2) 15).homog_core "UO2" "CO2" none
      (93/100) (1/2) (23389/100000) (31/1000))) - 1| ≤ 1/10000 :=
  c1_amended_sum_bound (HomogeneousInput.init 20 20 (1/2) 15) "UO2" "CO2"
    (93/100) (1/2) (23389/100000) (31/1000)
    (Or.inl rfl) (Or.inl ⟨rfl, rfl⟩)
    (by norm_num [HomogeneousInput.init]) (by norm_num [HomogeneousInput.init])
    (by norm_num) (by norm_num)



/-- Decimal exponent of a positive rational: the unique `e` with
`10^e ≤ q < 10^(e+1)`, computed from the digit counts of numerator and
denominator. -/
def exp10 (q : ℚ) : ℤ :=
  let e0 : ℤ := (Nat.log 10 q.num.natAbs : ℤ) - (Nat.log 10 q.den : ℤ)
  if q < (10:ℚ)^e0 then e0 - 1 else e0

/-- Scientific-notation mantissa/exponent rendering of a positive rational
with 5 digits after the decimal point, as produced by Python's `{:.5e}`
(round-half-even on the 5th decimal of the mantissa, carry into the exponent
when the mantissa rounds up to 10). -/
def fmtSci5core (q : ℚ) : String :=
  let e := exp10 q
  let m := round_half_even (q / (10:ℚ)^e * 100000)
  let m2 := if m = 1000000 then (100000 : ℤ) else m
  let e2 := if m = 1000000 then e + 1 else e
  let s := toString m2.toNat
  let mant := (s.take 1) ++ "." ++ (s.drop 1)
  let esign := if e2 < 0 then "-" else "+"
  let ea := e2.natAbs
  let estr := if ea < 10 then "0" ++ toString ea else toString ea
  mant ++ "e" ++ esign ++ estr

/-- Python `"{:.5e}".format(q)` on an exact rational. -/
def fmt5e (q : ℚ) : String :=
  if q = 0 then "0.00000e+00"
  else if q < 0 then "-" ++ fmtSci5core (-q)
  else fmtSci5core q

/-- One serialized material-card entry `"     {iso} -{frac:.5e}"` from
`write_mat_string`. -/
def matLine (iso : ℕ) (v : ℚ) : String :=
  "     " ++ toString iso ++ " -" ++ fmt5e v

/-- Ordered insertion into an ascending list (step of `sorted()`). -/
def insertSorted (a : ℕ) : List ℕ → List ℕ
  | [] => [a]
  | b :: rest => if a ≤ b then a :: b :: rest else b :: insertSorted a rest

/-- Python `sorted()` on a list of isotope identifiers (ascending). -/
def pysorted (l : List ℕ) : List ℕ := l.foldr insertSorted []

/-- `sorted(homog_comp.keys())` from `write_mat_string`. -/
def sortedKeys (comp : List (ℕ × ℚ)) : List ℕ := pysorted (comp.map Prod.fst)

/-- The material-card string built by `HomogeneousInput.write_mat_string`:
starting from `"m1\n"`, iterate over the sorted isotopes with their index;
skip entries whose absolute value is zero; append the formatted entry, and a
newline exactly when the index is not the last position of the sorted key
list. -/
def mat_string (comp : List (ℕ × ℚ)) : String :=
  let keys := sortedKeys comp
  (keys.enum).foldl (fun s p =>
    let v := (dget comp p.2).getD 0
    if |v| = 0 then s
    else s ++ matLine p.2 v ++ (if p.1 < keys.length - 1 then "\n" else "")) "m1\n"

/-- `HomogeneousInput.write_mat_string`: store the material card in the
`fuel_string` attribute. -/
def HomogeneousInput.write_mat_string (self : HomogeneousInput)
    (homog_comp : List (ℕ × ℚ)) : HomogeneousInput :=
  { self with fuel_string := some (mat_string homog_comp) }

/-- A parsed `string.Template`: literal pieces and `$`-substitution slots.
The template text itself (`base_input.txt`) is an external artifact, so the
parsed form is passed in as a parameter. -/
inductive TPart where
  | lit (s : String)
  | slot (name : String)
  deriving DecidableEq, Repr

/-- `Template.substitute`: concatenate literals and slot values; a slot
missing from the mapping raises `KeyError`. -/
def substitute : List TPart → List (String × String) → Except PyErr String
  | [], _ => .ok ""
  | .lit s :: rest, env => (substitute rest env).map (fun t => s ++ t)
  | .slot n :: rest, env =>
      match dget env n with
      | none => .error .keyError
      | some v => (substitute rest env).map (fun t => v ++ t)

/-- The IEEE-754 double value of Python's `math.pi`. -/
def mathPi : ℚ := 884279719003555/281474976710656

/-- Rendering of a numeric value into deck text (stand-in for Python's float
formatting; no claim inspects deck text, only which files exist). -/
def qstr (q : ℚ) : String := toString q

/-- The file store: a mapping from file name to content, in creation order. -/
abbrev FS := List (String × String)

/-- `os.remove`: drop the named file, `FileNotFoundError` if absent. -/
def fsRemove : FS → String → Except PyErr FS
  | [], _ => .error .fileNotFoundError
  | (n, c) :: rest, name =>
      if n = name then .ok rest
      else (fsRemove rest name).map (fun fs => (n, c) :: fs)

/-- `HomogeneousInput.write_input`: substitute the geometry-derived fields
into the template and write the deck file under `name` (overwriting).
Reading `self.rho`/`self.fuel_string` before they are assigned raises
`AttributeError`. -/
def HomogeneousInput.write_input (self : HomogeneousInput) (name header : String)
    (tmpl : List TPart) (fs : FS) : Except PyErr FS :=
  match self.rho, self.fuel_string with
  | some rho, some fstr =>
      match substitute tmpl
        [("model_information", header), ("r_core", qstr self.r),
         ("core_z", qstr self.z), ("refl_t", qstr self.t_refl),
         ("refl_z", qstr (self.z + 2 * self.t_refl)),
         ("r_refl", qstr (self.r + self.t_refl)),
         ("fuel_string", fstr),
         ("volume", qstr (self.r * self.r * self.z * mathPi)),
         ("fuel_rho", qstr rho)] with
      | .error e => .error e
      | .ok content => .ok (dset fs name content)
  | _, _ => .error .attributeError

/-- `write_inp` from `cooled_cyl.py`: build the `HomogeneousInput` with aspect
ratio 1, homogenize (enrichment 0.93, `r_cool` 0.5), write the material card,
write the deck. -/
def write_inp (frac core_r : ℚ) (basename : String) (coolant fuel : String)
    (matr : Option String) (cool_rho : ℚ) (tmpl : List TPart) (fs : FS) :
    Except PyErr FS :=
  let L := core_r * 1
  let inp := HomogeneousInput.init core_r L frac 15
  match inp.homog_core fuel coolant matr (93/100) (1/2) cool_rho (31/1000) with
  | .error e => .error e
  | .ok (inp2, homog_comp) =>
      (inp2.write_mat_string homog_comp).write_input basename
        "Fuel Fraction Experiment" tmpl fs

/-- Python whitespace, as used by `str.split()` with no argument. -/
def isPySpace (ch : Char) : Bool :=
  ch = ' ' || ch = '\t' || ch = '\n' || ch = '\r' || ch = '\x0b' || ch = '\x0c'

/-- Split a character list at every separator character, keeping (possibly
empty) segments between consecutive separators. -/
def breakOn (p : Char → Bool) : List Char → List (List Char)
  | [] => [[]]
  | ch :: rest =>
      let r := breakOn p rest
      if p ch then [] :: r
      else
        match r with
        | [] => [[ch]]
        | h :: t => (ch :: h) :: t

/-- Python `line.split()`: split on runs of whitespace, no empty tokens. -/
def pySplit (s : String) : List String :=
  ((breakOn isPySpace s.data).map String.mk).filter (fun t => t ≠ "")

/-- Substring test on character lists (Python's `pat in line`). -/
def infixCheck : List Char → List Char → Bool
  | pat, [] => pat.isEmpty
  | pat, ch :: rest => pat.isPrefixOf (ch :: rest) || infixCheck pat rest

/-- Python `pat in line` for strings. -/
def containsSub (pat s : String) : Bool := infixCheck pat.data s.data

/-- Python `file.readlines()`: split the content at newlines, keeping the
newline at the end of every line except a final unterminated one. -/
def pyReadlines (s : String) : List String :=
  let parts := (breakOn (fun ch => ch = '\n') s.data).map String.mk
  match parts.getLast? with
  | none => []
  | some last =>
      (parts.dropLast.map (fun t => t ++ "\n")) ++ (if last = "" then [] else [last])

/-- Consume leading decimal digits: returns (value, digit count, rest). -/
def readDigits : List Char → ℕ → ℕ → ℕ × ℕ × List Char
  | [], acc, n => (acc, n, [])
  | ch :: rest, acc, n =>
      if ch.isDigit then readDigits rest (acc * 10 + (ch.toNat - 48)) (n + 1)
      else (acc, n, ch :: rest)

/-- Python `float(token)` on decimal/scientific literals; `ValueError` on
anything else. -/
def pyFloat (s : String) : Except PyErr ℚ :=
  let cs := s.data
  let sgncs : ℚ × List Char :=
    match cs with
    | '-' :: rest => (-1, rest)
    | '+' :: rest => (1, rest)
    | _ => (1, cs)
  let ipr := readDigits sgncs.2 0 0
  let fpr : ℕ × ℕ × List Char :=
    match ipr.2.2 with
    | '.' :: rest => readDigits rest 0 0
    | _ => (0, 0, ipr.2.2)
  if ipr.2.1 = 0 ∧ fpr.2.1 = 0 then .error .valueError
  else
    let mant : ℚ := (ipr.1 : ℚ) + (fpr.1 : ℚ) / (10:ℚ)^fpr.2.1
    match fpr.2.2 with
    | [] => .ok (sgncs.1 * mant)
    | ech :: rest =>
      if ech = 'e' ∨ ech = 'E' then
        let esgn : ℤ × List Char :=
          match rest with
          | '-' :: r2 => (-1, r2)
          | '+' :: r2 => (1, r2)
          | _ => (1, rest)
        let evr := readDigits esgn.2 0 0
        if evr.2.1 = 0 ∨ evr.2.2 ≠ [] then .error .valueError
        else .ok (sgncs.1 * mant * (10:ℚ)^(esgn.1 * evr.1))
      else .error .valueError

/-- `parse_output` from `cooled_cyl.py`: read `basename + "o"`, collect the
indices of all lines containing `"final result"`, take the last such index
(`IndexError` when the list is empty, i.e. no line matched), split that line
on whitespace and parse its third token as the keff value (`IndexError` when
the line has fewer than three tokens). -/
def parse_output (fs : FS) (basename : String) : Except PyErr ℚ :=
  match dget fs (basename ++ "o") with
  | none => .error .fileNotFoundError
  | some content =>
    let lines := pyReadlines content
    let res_idx := (List.range lines.length).filter
      (fun idx => containsSub "final result" (lines.getD idx ""))
    match res_idx.getLast? with
    | none => .error .indexError
    | some i =>
      match (pySplit (lines.getD i "")).get? 2 with
      | none => .error .indexError
      | some tok => pyFloat tok

/-- The deck file name `"{round(frac,5)}_{round(radius,5)}.i"`. -/
def bname (frac radius : ℚ) : String :=
  qstr (pyround5 frac) ++ "_" ++ qstr (pyround5 radius) ++ ".i"

/-- `calc_keff_error` from `cooled_cyl.py`.  The external solver is a
parameter mapping the deck content to the contents of the three files it
produces (suffixes `r`, `s`, `o`); invoking it always blocks until it
terminates and its exit status is never inspected.  On success the four
per-evaluation artifacts are removed and `|keff - 1|` is returned; an
exception at any step propagates, leaving the file store as it was at the
point of the raise. -/
def calc_keff_error (solver : String → String × String × String) (tmpl : List TPart)
    (radius frac : ℚ) (coolant fuel : String) (matr : Option String) (cool_rho : ℚ)
    (fs : FS) : Except PyErr ℚ × FS :=
  let basename := bname frac radius
  match write_inp frac radius basename coolant fuel matr cool_rho tmpl fs with
  | .error e => (.error e, fs)
  | .ok fs1 =>
    let deck := (dget fs1 basename).getD ""
    let out := solver deck
    let fs2 := dset (dset (dset fs1 (basename ++ "r") out.1) (basename ++ "s") out.2.1)
      (basename ++ "o") out.2.2
    match parse_output fs2 basename with
    | .error e => (.error e, fs2)
    | .ok keff =>
      match fsRemove fs2 (basename ++ "r") with
      | .error e => (.error e, fs2)
      | .ok fs3 =>
        match fsRemove fs3 (basename ++ "s") with
        | .error e => (.error e, fs3)
        | .ok fs4 =>
          match fsRemove fs4 (basename ++ "o") with
          | .error e => (.error e, fs4)
          | .ok fs5 =>
            match fsRemove fs5 basename with
            | .error e => (.error e, fs5)
            | .ok fs6 => (.ok |keff - 1|, fs6)



/-- Reading a freshly written key returns the written value. -/
lemma dget_dset_self {β : Type} (l : List (String × β)) (k : String) (v : β) :
    dget (dset l k v) k = some v := by
  induction l with
  | nil => simp [dset, dget]
  | cons p rest ih =>
    obtain ⟨k', v'⟩ := p
    simp only [dset]
    split
    next heq => simp [dget]
    next heq => simp [dget, heq, ih]

/-- Writing one key does not change reads of another key. -/
lemma dget_dset_ne {β : Type} (l : List (String × β)) (k a : String) (v : β)
    (h : k ≠ a) : dget (dset l k v) a = dget l a := by
  induction l with
  | nil => simp [dset, dget, h]
  | cons p rest ih =>
    obtain ⟨k', v'⟩ := p
    simp only [dset]
    split
    next heq => subst heq; simp [dget, h, ih]
    next heq => simp only [dget]; split <;> simp [ih]

/-- Key membership after a dict write. -/
lemma mem_keys_dset {β : Type} (l : List (String × β)) (k a : String) (v : β) :
    a ∈ (dset l k v).map Prod.fst ↔ a = k ∨ a ∈ l.map Prod.fst := by
  induction l with
  | nil => simp [dset]
  | cons p rest ih =>
    obtain ⟨k', v'⟩ := p
    simp only [dset]
    split
    next heq => subst heq; simp only [List.map_cons, List.mem_cons]; tauto
    next heq => simp only [List.map_cons, List.mem_cons, ih]; tauto

/-- `dset` preserves distinctness of the keys. -/
lemma nodup_keys_dset {β : Type} (l : List (String × β)) (k : String) (v : β)
    (h : (l.map Prod.fst).Nodup) : ((dset l k v).map Prod.fst).Nodup := by
  induction l with
  | nil => simp [dset]
  | cons p rest ih =>
    obtain ⟨k', v'⟩ := p
    simp only [List.map_cons, List.nodup_cons] at h
    simp only [dset]
    split
    next heq => subst heq; simp only [List.map_cons, List.nodup_cons]; exact h
    next heq =>
      simp only [List.map_cons, List.nodup_cons]
      refine ⟨?_, ih h.2⟩
      rw [mem_keys_dset]
      rintro (h3 | h3)
      · exact heq h3
      · exact h.1 h3

/-- Every key present after a removal was present before it. -/
lemma fsRemove_keys_sub (l : List (String × String)) (k : String) (l2 : FS)
    (hrem : fsRemove l k = .ok l2) (a : String) (h : a ∈ l2.map Prod.fst) :
    a ∈ l.map Prod.fst := by
  induction l generalizing l2 with
  | nil => simp [fsRemove] at hrem
  | cons p rest ih =>
    obtain ⟨k', v'⟩ := p
    simp only [fsRemove] at hrem
    split at hrem
    next heq =>
      cases hrem
      simp only [List.map_cons, List.mem_cons]
      exact Or.inr h
    next heq =>
      cases h4 : fsRemove rest k with
      | error e => rw [h4] at hrem; simp [Except.map] at hrem
      | ok l3 =>
        rw [h4] at hrem
        simp only [Except.map, Except.ok.injEq] at hrem
        subst hrem
        simp only [List.map_cons, List.mem_cons] at h ⊢
        rcases h with h5 | h5
        · exact Or.inl h5
        · exact Or.inr (ih l3 h4 h5)

/-- A key absent before a removal is still absent after it. -/
lemma fsRemove_dget_none (l : List (String × String)) (k a : String) (l2 : FS)
    (hrem : fsRemove l k = .ok l2) (h : dget l a = none) : dget l2 a = none := by
  induction l generalizing l2 with
  | nil => simp [fsRemove] at hrem
  | cons p rest ih =>
    obtain ⟨k', v'⟩ := p
    have h6 : ¬ k' = a := by
      intro heq
      simp [dget, heq] at h
    simp only [dget, if_neg h6] at h
    simp only [fsRemove] at hrem
    split at hrem
    next heq =>
      cases hrem
      exact h
    next heq =>
      cases h4 : fsRemove rest k with
      | error e => rw [h4] at hrem; simp [Except.map] at hrem
      | ok l3 =>
        rw [h4] at hrem
        simp only [Except.map, Except.ok.injEq] at hrem
        subst hrem
        simp only [dget, if_neg h6]
        exact ih l3 h4 h

/-- A key not among the stored keys reads as `none`. -/
lemma dget_eq_none {β : Type} (l : List (String × β)) (a : String)
    (h : a ∉ l.map Prod.fst) : dget l a = none := by
  induction l with
  | nil => simp [dget]
  | cons p rest ih =>
    obtain ⟨k', v'⟩ := p
    simp only [List.map_cons, List.mem_cons, not_or] at h
    simp only [dget, if_neg (fun hh : k' = a => h.1 hh.symm)]
    exact ih h.2

/-- Removing a key from a store with distinct keys really removes it. -/
lemma fsRemove_dget_self (l : List (String × String)) (k : String) (l2 : FS)
    (hnd : (l.map Prod.fst).Nodup) (hrem : fsRemove l k = .ok l2) :
    dget l2 k = none := by
  induction l generalizing l2 with
  | nil => simp [fsRemove] at hrem
  | cons p rest ih =>
    obtain ⟨k', v'⟩ := p
    simp only [List.map_cons, List.nodup_cons] at hnd
    simp only [fsRemove] at hrem
    split at hrem
    next heq =>
      subst heq
      cases hrem
      exact dget_eq_none _ _ hnd.1
    next heq =>
      cases h4 : fsRemove rest k with
      | error e => rw [h4] at hrem; simp [Except.map] at hrem
      | ok l3 =>
        rw [h4] at hrem
        simp only [Except.map, Except.ok.injEq] at hrem
        subst hrem
        simp only [dget, if_neg heq]
        exact ih l3 hnd.2 h4

/-- Removal preserves distinctness of the keys. -/
lemma fsRemove_nodup (l : List (String × String)) (k : String) (l2 : FS)
    (hnd : (l.map Prod.fst).Nodup) (hrem : fsRemove l k = .ok l2) :
    (l2.map Prod.fst).Nodup := by
  induction l generalizing l2 with
  | nil => simp [fsRemove] at hrem
  | cons p rest ih =>
    obtain ⟨k', v'⟩ := p
    simp only [List.map_cons, List.nodup_cons] at hnd
    simp only [fsRemove] at hrem
    split at hrem
    next heq =>
      cases hrem
      exact hnd.2
    next heq =>
      cases h4 : fsRemove rest k with
      | error e => rw [h4] at hrem; simp [Except.map] at hrem
      | ok l3 =>
        rw [h4] at hrem
        simp only [Except.map, Except.ok.injEq] at hrem
        subst hrem
        simp only [List.map_cons, List.nodup_cons]
        exact ⟨fun hmem => hnd.1 (fsRemove_keys_sub rest k l3 h4 k' hmem), ih l3 hnd.2 h4⟩

/-- Appending different suffixes to the same base gives different strings. -/
lemma append_suffix_ne (b : String) (t u : String)
    (h : t.data ≠ u.data) : b ++ t ≠ b ++ u := by
  intro he
  apply h
  have hd : (b ++ t).data = (b ++ u).data := congrArg String.data he
  rw [String.data_append, String.data_append] at hd
  exact List.append_cancel_left hd

/-- A string differs from itself extended by a nonempty suffix. -/
lemma self_append_ne (b : String) (t : String) (h : t.data ≠ []) : b ≠ b ++ t := by
  intro he
  apply h
  have hd : b.data = (b ++ t).data := congrArg String.data he
  rw [String.data_append] at hd
  have h2 : b.data ++ ([] : List Char) = b.data ++ t.data := by simpa using hd
  exact (List.append_cancel_left h2).symm



/-- Selecting the last matching line index over `range` and reading that line
is the same as taking the last element of the filtered line list: the
index-collecting loop of `parse_output` selects the last marker line. -/
lemma lastIdx_filter (lines : List String) (p : String → Bool) :
    (((List.range lines.length).filter (fun i => p (lines.getD i ""))).getLast?).map
      (fun i => lines.getD i "") = (lines.filter p).getLast? := by
  induction lines using List.reverseRecOn with
  | nil => simp
  | append_singleton xs x ih =>
    have hlen : (xs ++ [x]).length = xs.length + 1 := by simp
    rw [hlen, List.range_succ, List.filter_append, List.filter_append]
    have hgx : (xs ++ [x]).getD xs.length "" = x := by
      simp [List.getD_eq_getElem?_getD, List.getElem?_append_right (le_refl xs.length)]
    have hcongr : (List.range xs.length).filter
          (fun i => p ((xs ++ [x]).getD i "")) =
        (List.range xs.length).filter (fun i => p (xs.getD i "")) := by
      apply List.filter_congr
      intro i hi
      rw [List.mem_range] at hi
      rw [List.getD_eq_getElem?_getD, List.getD_eq_getElem?_getD,
        List.getElem?_append_left hi]
    rw [hcongr]
    cases hpx : p x with
    | false =>
      simp only [List.filter_cons, hgx, hpx, Bool.false_eq_true, if_false,
        List.filter_nil, List.append_nil]
      rw [← ih]
      cases hl : ((List.range xs.length).filter (fun i => p (xs.getD i ""))).getLast? with
      | none => simp
      | some i =>
        have hmem : i ∈ (List.range xs.length).filter (fun j => p (xs.getD j "")) :=
          List.mem_of_getLast?_eq_some hl
        have hi : i < xs.length := by
          rw [List.mem_filter, List.mem_range] at hmem
          exact hmem.1
        simp only [Option.map_some']
        rw [List.getD_eq_getElem?_getD, List.getD_eq_getElem?_getD,
          List.getElem?_append_left hi]
    | true =>
      simp only [List.filter_cons, hgx, hpx, if_true, List.filter_nil]
      rw [List.getLast?_append_of_ne_nil _ (by simp :
          ([xs.length] : List ℕ) ≠ []),
        List.getLast?_append_of_ne_nil _ (by simp : ([x] : List String) ≠ [])]
      simp [hgx]



/-- `parse_output` selects the last marker line and parses its third token
(shared computation lemma). -/
lemma parse_output_spec (fs : FS) (basename content L tok : String)
    (hread : dget fs (basename ++ "o") = some content)
    (hlast : ((pyReadlines content).filter
      (fun l => containsSub "final result" l)).getLast? = some L)
    (htok : (pySplit L).get? 2 = some tok) :
    parse_output fs basename = pyFloat tok := by
  have hkey : (((List.range (pyReadlines content).length).filter
      (fun idx => containsSub "final result" ((pyReadlines content).getD idx ""))).getLast?).map
      (fun i => (pyReadlines content).getD i "")
      = ((pyReadlines content).filter (fun l => containsSub "final result" l)).getLast? :=
    lastIdx_filter (pyReadlines content) (fun l => containsSub "final result" l)
  rw [hlast] at hkey
  simp only [parse_output, hread]
  cases hi : ((List.range (pyReadlines content).length).filter
      (fun idx => containsSub "final result" ((pyReadlines content).getD idx ""))).getLast? with
  | none => rw [hi] at hkey; simp at hkey
  | some i =>
    rw [hi] at hkey
    simp only [Option.map_some', Option.some.injEq] at hkey
    simp only [hkey, htok]

/-- C3: whenever the solver output file has at least one line containing the
marker phrase `"final result"`, `parse_output` returns the value parsed from
the third whitespace-delimited token of the *last* such line, also when
several lines match. -/
theorem c3_parse_last_marker (fs : FS) (basename content L tok : String)
    (hread : dget fs (basename ++ "o") = some content)
    (hlast : ((pyReadlines content).filter
      (fun l => containsSub "final result" l)).getLast? = some L)
    (htok : (pySplit L).get? 2 = some tok) :
    parse_output fs basename = pyFloat tok :=
  parse_output_spec fs basename content L tok hread hlast htok

/-- C3 witness: a synthetic three-line output with two marker lines; the
value comes from the third token of the second (last) marker line. -/
theorem c3_witness :
    parse_output [("x.io", "junk\n final result  1.04 est\nfinal result 0.98765 final\n")]
      "x.i" = pyFloat "0.98765" :=
  c3_parse_last_marker
    [("x.io", "junk\n final result  1.04 est\nfinal result 0.98765 final\n")]
    "x.i" "junk\n final result  1.04 est\nfinal result 0.98765 final\n"
    "final result 0.98765 final\n" "0.98765" rfl rfl rfl

/-- When no line of the output file contains the marker phrase, the
index list is empty and `res_idx[-1]` raises `IndexError`. -/
lemma parse_output_noMarker (fs : FS) (basename content : String)
    (hread : dget fs (basename ++ "o") = some content)
    (hempty : (pyReadlines content).filter
      (fun l => containsSub "final result" l) = []) :
    parse_output fs basename = .error .indexError := by
  have hkey : (((List.range (pyReadlines content).length).filter
      (fun idx => containsSub "final result" ((pyReadlines content).getD idx ""))).getLast?).map
      (fun i => (pyReadlines content).getD i "")
      = ((pyReadlines content).filter (fun l => containsSub "final result" l)).getLast? :=
    lastIdx_filter (pyReadlines content) (fun l => containsSub "final result" l)
  rw [hempty] at hkey
  simp only [List.getLast?_nil, Option.map_eq_none'] at hkey
  simp only [parse_output, hread, hkey]

/-- C4: when the solver writes an output file with no marker line, the
evaluation of `calc_keff_error` fails hard with the IndexError raised inside
`parse_output` (the spec's ParseError); it does not return any substituted
keff value. -/
theorem c4_parse_error_propagates (solver : String → String × String × String)
    (tmpl : List TPart) (radius frac : ℚ) (coolant fuel : String)
    (matr : Option String) (cool_rho : ℚ) (fs : FS)
    (hsolver : ∀ deck, (pyReadlines (solver deck).2.2).filter
      (fun l => containsSub "final result" l) = [])
    (hw : isOkE (write_inp frac radius (bname frac radius) coolant fuel matr
      cool_rho tmpl fs) = true) :
    (calc_keff_error solver tmpl radius frac coolant fuel matr cool_rho fs).1
      = .error .indexError := by
  cases hwi : write_inp frac radius (bname frac radius) coolant fuel matr cool_rho tmpl fs with
  | error e => rw [hwi] at hw; simp [isOkE] at hw
  | ok fs1 =>
    simp only [calc_keff_error, hwi]
    rw [parse_output_noMarker _ _ _ (dget_dset_self _ _ _) (hsolver _)]



/-- C4 witness: a solver whose output file lacks the marker phrase makes the
whole evaluation fail with the IndexError, using the UO2/CO2 configuration at
volume fraction 0.1 and radius 10. -/
theorem c4_witness :
    (calc_keff_error (fun d => ("", "", "no numbers here\n")) [TPart.lit "deck"]
      10 (1/10) "CO2" "UO2" none (23389/100000) []).1 = .error .indexError := by
  have hd : (93/100 : ℚ) / mmU25 + (1 - 93/100) / mmU28 ≠ 0 := by
    unfold mmU25 mmU28; norm_num
  have hx : ((HomogeneousInput.init 10 (10 * 1) (1/10) 15).vfrac_fuel * (1097/100) * 1
      + (1 - (HomogeneousInput.init 10 (10 * 1) (1/10) 15).vfrac_fuel) * (23389/100000)
      + 0 : ℚ) = 1307501/1000000 := by
    show ((1/10 : ℚ)) * (1097/100) * 1 + (1 - 1/10) * (23389/100000) + 0 = 1307501/1000000
    norm_num
  have hrho : pyround5 ((HomogeneousInput.init 10 (10 * 1) (1/10) 15).vfrac_fuel * (1097/100) * 1
      + (1 - (HomogeneousInput.init 10 (10 * 1) (1/10) 15).vfrac_fuel) * (23389/100000)
      + 0) ≠ 0 := by
    rw [hx]
    have hcl := pyround5_close (1307501/1000000)
    intro h
    rw [h] at hcl
    rw [abs_sub_comm, abs_of_nonneg (by norm_num)] at hcl
    norm_num at hcl
  have hw : isOkE (write_inp (1/10) 10 (bname (1/10) 10) "CO2" "UO2" none
      (23389/100000) [TPart.lit "deck"] []) = true := by
    simp only [write_inp]
    rw [homog_core_noMatr (HomogeneousInput.init 10 (10 * 1) (1/10) 15) "UO2" "CO2"
      (93/100) (1/2) (23389/100000) (31/1000) (1097/100)
      [(6000, 27291/100000), (8016, 72709/100000)]
      [(8016, 15204/100000), (92235, 84796/100000 * (93/100)),
        (92238, 84796/100000 * (1 - 93/100))]
      (mmO + 1 / (93/100 / mmU25 + (1 - 93/100) / mmU28))
      rfl (enrich_fuel_UO2 (93/100) hd) rfl hrho]
    rfl
  exact c4_parse_error_propagates (fun d => ("", "", "no numbers here\n"))
    [TPart.lit "deck"] 10 (1/10) "CO2" "UO2" none (23389/100000) []
    (fun d => rfl) hw



/-- On success, `write_inp` writes exactly one file: the deck under
`basename`. -/
lemma write_inp_ok_shape (frac core_r : ℚ) (basename coolant fuel : String)
    (matr : Option String) (cool_rho : ℚ) (tmpl : List TPart) (fs : FS) (fs1 : FS)
    (h : write_inp frac core_r basename coolant fuel matr cool_rho tmpl fs = .ok fs1) :
    ∃ content, fs1 = dset fs basename content := by
  simp only [write_inp] at h
  split at h
  next => cases h
  next inp2 comp heq =>
    simp only [HomogeneousInput.write_mat_string, HomogeneousInput.write_input] at h
    split at h
    next rho fstr hrho hfstr =>
      split at h
      next => cases h
      next content hsub =>
        cases h
        exact ⟨content, rfl⟩
    next => cases h

/-- C2 amended: on the success path all four per-evaluation artifacts (the
deck and the three solver files) are removed; a ParseError aborts before any
removal, so the amended cleanup guarantee covers only successful
evaluations. -/
theorem c2_amended_cleanup_on_success (solver : String → String × String × String)
    (tmpl : List TPart) (radius frac : ℚ) (coolant fuel : String)
    (matr : Option String) (cool_rho : ℚ) (fs : FS)
    (hnd : (fs.map Prod.fst).Nodup)
    (hok : isOkE (calc_keff_error solver tmpl radius frac coolant fuel matr
      cool_rho fs).1 = true) :
    dget (calc_keff_error solver tmpl radius frac coolant fuel matr cool_rho fs).2
      (bname frac radius) = none ∧
    dget (calc_keff_error solver tmpl radius frac coolant fuel matr cool_rho fs).2
      (bname frac radius ++ "r") = none ∧
    dget (calc_keff_error solver tmpl radius frac coolant fuel matr cool_rho fs).2
      (bname frac radius ++ "s") = none ∧
    dget (calc_keff_error solver tmpl radius frac coolant fuel matr cool_rho fs).2
      (bname frac radius ++ "o") = none := by
  cases hwi : write_inp frac radius (bname frac radius) coolant fuel matr cool_rho tmpl fs with
  | error e =>
    simp [calc_keff_error, hwi, isOkE] at hok
  | ok fs1 =>
    obtain ⟨content, hc⟩ := write_inp_ok_shape frac radius (bname frac radius)
      coolant fuel matr cool_rho tmpl fs fs1 hwi
    have hnd1 : (fs1.map Prod.fst).Nodup := hc ▸ nodup_keys_dset fs (bname frac radius) content hnd
    simp only [calc_keff_error, hwi] at hok
    have hnd2 : ((dset (dset (dset fs1 (bname frac radius ++ "r")
        (solver ((dget fs1 (bname frac radius)).getD "")).1) (bname frac radius ++ "s")
        (solver ((dget fs1 (bname frac radius)).getD "")).2.1) (bname frac radius ++ "o")
        (solver ((dget fs1 (bname frac radius)).getD "")).2.2).map Prod.fst).Nodup :=
      nodup_keys_dset _ _ _ (nodup_keys_dset _ _ _ (nodup_keys_dset _ _ _ hnd1))
    cases hp : parse_output (dset (dset (dset fs1 (bname frac radius ++ "r")
        (solver ((dget fs1 (bname frac radius)).getD "")).1) (bname frac radius ++ "s")
        (solver ((dget fs1 (bname frac radius)).getD "")).2.1) (bname frac radius ++ "o")
        (solver ((dget fs1 (bname frac radius)).getD "")).2.2) (bname frac radius) with
    | error e => simp [hp, isOkE] at hok
    | ok keff =>
      simp only [hp] at hok
      cases hr : fsRemove (dset (dset (dset fs1 (bname frac radius ++ "r")
          (solver ((dget fs1 (bname frac radius)).getD "")).1) (bname frac radius ++ "s")
          (solver ((dget fs1 (bname frac radius)).getD "")).2.1) (bname frac radius ++ "o")
          (solver ((dget fs1 (bname frac radius)).getD "")).2.2)
          (bname frac radius ++ "r") with
      | error e => simp [hr, isOkE] at hok
      | ok fs3 =>
        simp only [hr] at hok
        have hnd3 : (fs3.map Prod.fst).Nodup := fsRemove_nodup _ _ _ hnd2 hr
        cases hs : fsRemove fs3 (bname frac radius ++ "s") with
        | error e => simp [hs, isOkE] at hok
        | ok fs4 =>
          simp only [hs] at hok
          have hnd4 : (fs4.map Prod.fst).Nodup := fsRemove_nodup _ _ _ hnd3 hs
          cases ho : fsRemove fs4 (bname frac radius ++ "o") with
          | error e => simp [ho, isOkE] at hok
          | ok fs5 =>
            simp only [ho] at hok
            have hnd5 : (fs5.map Prod.fst).Nodup := fsRemove_nodup _ _ _ hnd4 ho
            cases hb : fsRemove fs5 (bname frac radius) with
            | error e => simp [hb, isOkE] at hok
            | ok fs6 =>
              have hcalc : calc_keff_error solver tmpl radius frac coolant fuel matr
                  cool_rho fs = (.ok |keff - 1|, fs6) := by
                simp only [calc_keff_error, hwi, hp, hr, hs, ho, hb]
              rw [hcalc]
              exact ⟨fsRemove_dget_self fs5 (bname frac radius) fs6 hnd5 hb,
                fsRemove_dget_none fs5 (bname frac radius) _ fs6 hb
                  (fsRemove_dget_none fs4 (bname frac radius ++ "o") _ fs5 ho
                    (fsRemove_dget_none fs3 (bname frac radius ++ "s") _ fs4 hs
                      (fsRemove_dget_self _ (bname frac radius ++ "r") fs3 hnd2 hr))),
                fsRemove_dget_none fs5 (bname frac radius) _ fs6 hb
                  (fsRemove_dget_none fs4 (bname frac radius ++ "o") _ fs5 ho
                    (fsRemove_dget_self fs3 (bname frac radius ++ "s") fs4 hnd3 hs)),
                fsRemove_dget_none fs5 (bname frac radius) _ fs6 hb
                  (fsRemove_dget_self fs4 (bname frac radius ++ "o") fs5 hnd4 ho)⟩



/-- C2 counterexample: when the solver output lacks the marker phrase, the
evaluation aborts with the ParseError *before* any `os.remove` runs, so all
four per-evaluation artifacts (deck, `r`, `s`, `o` files) still exist on
storage after the evaluation — refuting the claim that they are removed on
the failure path as well. -/
theorem c2_counterexample :
    (calc_keff_error (fun d => ("rr", "ss", "no numbers here\n")) [TPart.lit "deck"]
      10 (1/10) "CO2" "UO2" none (23389/100000) []).1 = .error .indexError ∧
    (dget (calc_keff_error (fun d => ("rr", "ss", "no numbers here\n")) [TPart.lit "deck"]
      10 (1/10) "CO2" "UO2" none (23389/100000) []).2 (bname (1/10) 10)).isSome = true ∧
    (dget (calc_keff_error (fun d => ("rr", "ss", "no numbers here\n")) [TPart.lit "deck"]
      10 (1/10) "CO2" "UO2" none (23389/100000) []).2 (bname (1/10) 10 ++ "r")).isSome = true ∧
    (dget (calc_keff_error (fun d => ("rr", "ss", "no numbers here\n")) [TPart.lit "deck"]
      10 (1/10) "CO2" "UO2" none (23389/100000) []).2 (bname (1/10) 10 ++ "s")).isSome = true ∧
    (dget (calc_keff_error (fun d => ("rr", "ss", "no numbers here\n")) [TPart.lit "deck"]
      10 (1/10) "CO2" "UO2" none (23389/100000) []).2 (bname (1/10) 10 ++ "o")).isSome = true := by
  have hd : (93/100 : ℚ) / mmU25 + (1 - 93/100) / mmU28 ≠ 0 := by
    unfold mmU25 mmU28; norm_num
  have hx : ((HomogeneousInput.init 10 (10 * 1) (1/10) 15).vfrac_fuel * (1097/100) * 1
      + (1 - (HomogeneousInput.init 10 (10 * 1) (1/10) 15).vfrac_fuel) * (23389/100000)
      + 0 : ℚ) = 1307501/1000000 := by
    show ((1/10 : ℚ)) * (1097/100) * 1 + (1 - 1/10) * (23389/100000) + 0 = 1307501/1000000
    norm_num
  have hrho : pyround5 ((HomogeneousInput.init 10 (10 * 1) (1/10) 15).vfrac_fuel * (1097/100) * 1
      + (1 - (HomogeneousInput.init 10 (10 * 1) (1/10) 15).vfrac_fuel) * (23389/100000)
      + 0) ≠ 0 := by
    rw [hx]
    have hcl := pyround5_close (1307501/1000000)
    intro h
    rw [h] at hcl
    rw [abs_sub_comm, abs_of_nonneg (by norm_num)] at hcl
    norm_num at hcl
  have hwi : write_inp (1/10) 10 (bname (1/10) 10) "CO2" "UO2" none
      (23389/100000) [TPart.lit "deck"] []
      = .ok (dset [] (bname (1/10) 10) ("deck" ++ "")) := by
    simp only [write_inp]
    rw [homog_core_noMatr (HomogeneousInput.init 10 (10 * 1) (1/10) 15) "UO2" "CO2"
      (93/100) (1/2) (23389/100000) (31/1000) (1097/100)
      [(6000, 27291/100000), (8016, 72709/100000)]
      [(8016, 15204/100000), (92235, 84796/100000 * (93/100)),
        (92238, 84796/100000 * (1 - 93/100))]
      (mmO + 1 / (93/100 / mmU25 + (1 - 93/100) / mmU28))
      rfl (enrich_fuel_UO2 (93/100) hd) rfl hrho]
    rfl
  have hparse : parse_output (dset (dset (dset (dset [] (bname (1/10) 10) ("deck" ++ ""))
      (bname (1/10) 10 ++ "r") "rr") (bname (1/10) 10 ++ "s") "ss")
      (bname (1/10) 10 ++ "o") "no numbers here\n") (bname (1/10) 10)
      = .error .indexError :=
    parse_output_noMarker _ _ _ (dget_dset_self _ _ _) rfl
  have hcalc : calc_keff_error (fun d => ("rr", "ss", "no numbers here\n")) [TPart.lit "deck"]
      10 (1/10) "CO2" "UO2" none (23389/100000) []
      = (.error .indexError, dset (dset (dset (dset [] (bname (1/10) 10) ("deck" ++ ""))
        (bname (1/10) 10 ++ "r") "rr") (bname (1/10) 10 ++ "s") "ss")
        (bname (1/10) 10 ++ "o") "no numbers here\n") := by
    simp only [calc_keff_error, hwi, hparse]
  rw [hcalc]
  refine ⟨rfl, ?_, ?_, ?_, ?_⟩
  · rw [dget_dset_ne _ _ _ _ (Ne.symm (self_append_ne _ "o" (by decide))),
      dget_dset_ne _ _ _ _ (Ne.symm (self_append_ne _ "s" (by decide))),
      dget_dset_ne _ _ _ _ (Ne.symm (self_append_ne _ "r" (by decide))),
      dget_dset_self]
    rfl
  · rw [dget_dset_ne _ _ _ _ (append_suffix_ne _ "o" "r" (by decide)),
      dget_dset_ne _ _ _ _ (append_suffix_ne _ "s" "r" (by decide)),
      dget_dset_self]
    rfl
  · rw [dget_dset_ne _ _ _ _ (append_suffix_ne _ "o" "s" (by decide)),
      dget_dset_self]
    rfl
  · rw [dget_dset_self]
    rfl



/-- C2 amended witness: a successful evaluation (the solver reports
`final result 1.04 x`) removes all four artifacts. -/
theorem c2_amended_witness :
    dget (calc_keff_error (fun d => ("rr", "ss", "final result 1.04 x\n")) [TPart.lit "deck"]
      10 (1/10) "CO2" "UO2" none (23389/100000) []).2 (bname (1/10) 10) = none ∧
    dget (calc_keff_error (fun d => ("rr", "ss", "final result 1.04 x\n")) [TPart.lit "deck"]
      10 (1/10) "CO2" "UO2" none (23389/100000) []).2 (bname (1/10) 10 ++ "r") = none ∧
    dget (calc_keff_error (fun d => ("rr", "ss", "final result 1.04 x\n")) [TPart.lit "deck"]
      10 (1/10) "CO2" "UO2" none (23389/100000) []).2 (bname (1/10) 10 ++ "s") = none ∧
    dget (calc_keff_error (fun d => ("rr", "ss", "final result 1.04 x\n")) [TPart.lit "deck"]
      10 (1/10) "CO2" "UO2" none (23389/100000) []).2 (bname (1/10) 10 ++ "o") = none := by
  have hd : (93/100 : ℚ) / mmU25 + (1 - 93/100) / mmU28 ≠ 0 := by
    unfold mmU25 mmU28; norm_num
  have hx : ((HomogeneousInput.init 10 (10 * 1) (1/10) 15).vfrac_fuel * (1097/100) * 1
      + (1 - (HomogeneousInput.init 10 (10 * 1) (1/10) 15).vfrac_fuel) * (23389/100000)
      + 0 : ℚ) = 1307501/1000000 := by
    show ((1/10 : ℚ)) * (1097/100) * 1 + (1 - 1/10) * (23389/100000) + 0 = 1307501/1000000
    norm_num
  have hrho : pyround5 ((HomogeneousInput.init 10 (10 * 1) (1/10) 15).vfrac_fuel * (1097/100) * 1
      + (1 - (HomogeneousInput.init 10 (10 * 1) (1/10) 15).vfrac_fuel) * (23389/100000)
      + 0) ≠ 0 := by
    rw [hx]
    have hcl := pyround5_close (1307501/1000000)
    intro h
    rw [h] at hcl
    rw [abs_sub_comm, abs_of_nonneg (by norm_num)] at hcl
    norm_num at hcl
  have hwi : write_inp (1/10) 10 (bname (1/10) 10) "CO2" "UO2" none
      (23389/100000) [TPart.lit "deck"] []
      = .ok (dset [] (bname (1/10) 10) ("deck" ++ "")) := by
    simp only [write_inp]
    rw [homog_core_noMatr (HomogeneousInput.init 10 (10 * 1) (1/10) 15) "UO2" "CO2"
      (93/100) (1/2) (23389/100000) (31/1000) (1097/100)
      [(6000, 27291/100000), (8016, 72709/100000)]
      [(8016, 15204/100000), (92235, 84796/100000 * (93/100)),
        (92238, 84796/100000 * (1 - 93/100))]
      (mmO + 1 / (93/100 / mmU25 + (1 - 93/100) / mmU28))
      rfl (enrich_fuel_UO2 (93/100) hd) rfl hrho]
    rfl
  have hner : ¬ (bname (1/10) 10 = bname (1/10) 10 ++ "r") :=
    self_append_ne _ "r" (by decide)
  have hnes : ¬ (bname (1/10) 10 = bname (1/10) 10 ++ "s") :=
    self_append_ne _ "s" (by decide)
  have hneo : ¬ (bname (1/10) 10 = bname (1/10) 10 ++ "o") :=
    self_append_ne _ "o" (by decide)
  have hnrs : ¬ (bname (1/10) 10 ++ "r" = bname (1/10) 10 ++ "s") :=
    append_suffix_ne _ "r" "s" (by decide)
  have hnro : ¬ (bname (1/10) 10 ++ "r" = bname (1/10) 10 ++ "o") :=
    append_suffix_ne _ "r" "o" (by decide)
  have hnso : ¬ (bname (1/10) 10 ++ "s" = bname (1/10) 10 ++ "o") :=
    append_suffix_ne _ "s" "o" (by decide)
  have hfs2 : dset (dset (dset (dset [] (bname (1/10) 10) ("deck" ++ ""))
      (bname (1/10) 10 ++ "r") "rr") (bname (1/10) 10 ++ "s") "ss")
      (bname (1/10) 10 ++ "o") "final result 1.04 x\n"
      = [(bname (1/10) 10, "deck" ++ ""), (bname (1/10) 10 ++ "r", "rr"),
         (bname (1/10) 10 ++ "s", "ss"),
         (bname (1/10) 10 ++ "o", "final result 1.04 x\n")] := by
    simp only [dset, hner, hnes, hneo, hnrs, hnro, hnso, ite_false]
  have hread : dget [(bname (1/10) 10, "deck" ++ ""), (bname (1/10) 10 ++ "r", "rr"),
      (bname (1/10) 10 ++ "s", "ss"),
      (bname (1/10) 10 ++ "o", "final result 1.04 x\n")] (bname (1/10) 10 ++ "o")
      = some "final result 1.04 x\n" := by
    simp only [dget, hneo, hnro, hnso, ite_false, ite_true, eq_self_iff_true]
  have hparse : parse_output [(bname (1/10) 10, "deck" ++ ""),
      (bname (1/10) 10 ++ "r", "rr"), (bname (1/10) 10 ++ "s", "ss"),
      (bname (1/10) 10 ++ "o", "final result 1.04 x\n")] (bname (1/10) 10)
      = pyFloat "1.04" :=
    parse_output_spec _ _ "final result 1.04 x\n" "final result 1.04 x\n" "1.04"
      hread rfl rfl
  cases hpf : pyFloat "1.04" with
  | error e =>
    have hok104 : isOkE (pyFloat "1.04") = true := rfl
    rw [hpf] at hok104
    simp [isOkE] at hok104
  | ok q =>
    have hrem1 : fsRemove [(bname (1/10) 10, "deck" ++ ""), (bname (1/10) 10 ++ "r", "rr"),
        (bname (1/10) 10 ++ "s", "ss"), (bname (1/10) 10 ++ "o", "final result 1.04 x\n")]
        (bname (1/10) 10 ++ "r")
        = .ok [(bname (1/10) 10, "deck" ++ ""), (bname (1/10) 10 ++ "s", "ss"),
            (bname (1/10) 10 ++ "o", "final result 1.04 x\n")] := by
      simp only [fsRemove, Except.map, hner, ite_false, ite_true, eq_self_iff_true]
    have hrem2 : fsRemove [(bname (1/10) 10, "deck" ++ ""), (bname (1/10) 10 ++ "s", "ss"),
        (bname (1/10) 10 ++ "o", "final result 1.04 x\n")] (bname (1/10) 10 ++ "s")
        = .ok [(bname (1/10) 10, "deck" ++ ""),
            (bname (1/10) 10 ++ "o", "final result 1.04 x\n")] := by
      simp only [fsRemove, Except.map, hnes, ite_false, ite_true, eq_self_iff_true]
    have hrem3 : fsRemove [(bname (1/10) 10, "deck" ++ ""),
        (bname (1/10) 10 ++ "o", "final result 1.04 x\n")] (bname (1/10) 10 ++ "o")
        = .ok [(bname (1/10) 10, "deck" ++ "")] := by
      simp only [fsRemove, Except.map, hneo, ite_false, ite_true, eq_self_iff_true]
    have hrem4 : fsRemove [(bname (1/10) 10, "deck" ++ "")] (bname (1/10) 10)
        = .ok [] := by
      simp only [fsRemove, ite_true, eq_self_iff_true]
    have hcalc : calc_keff_error (fun d => ("rr", "ss", "final result 1.04 x\n"))
        [TPart.lit "deck"] 10 (1/10) "CO2" "UO2" none (23389/100000) []
        = (.ok |q - 1|, []) := by
      simp only [calc_keff_error, hwi, hfs2, hparse, hpf, hrem1, hrem2, hrem3, hrem4]
    have hok : isOkE (calc_keff_error (fun d => ("rr", "ss", "final result 1.04 x\n"))
        [TPart.lit "deck"] 10 (1/10) "CO2" "UO2" none (23389/100000) []).1 = true := by
      rw [hcalc]
      rfl
    exact c2_amended_cleanup_on_success (fun d => ("rr", "ss", "final result 1.04 x\n"))
      [TPart.lit "deck"] 10 (1/10) "CO2" "UO2" none (23389/100000) [] (by simp) hok



/-- String append is associative. -/
lemma str_append_assoc (a b c : String) : (a ++ b) ++ c = a ++ (b ++ c) :=
  String.ext (by simp [String.data_append, List.append_assoc])

/-- The empty string is a right identity for append. -/
lemma str_append_empty (s : String) : s ++ "" = s :=
  String.ext (by simp [String.data_append])

/-- The empty string is a left identity for append. -/
lemma str_empty_append (s : String) : "" ++ s = s :=
  String.ext (by simp [String.data_append])

/-- The entries block described by the amended claim: each sorted isotope in
order; a zero-valued isotope contributes nothing; a nonzero isotope
contributes its `matLine` entry, followed by a line break unless the isotope
occupies the final position of the sorted key list (so when the last sorted
key has a zero value, the previous serialized entry keeps its trailing line
break). -/
def spec_entries (comp : List (ℕ × ℚ)) : List ℕ → String
  | [] => ""
  | [k] => if (dget comp k).getD 0 = 0 then "" else matLine k ((dget comp k).getD 0)
  | k :: k2 :: rest =>
      (if (dget comp k).getD 0 = 0 then "" else matLine k ((dget comp k).getD 0) ++ "\n")
        ++ spec_entries comp (k2 :: rest)

/-- The amended specification of the material card: the header line `m1`
followed by the entries block in ascending isotope order. -/
def mat_card_spec (comp : List (ℕ × ℚ)) : String :=
  "m1\n" ++ spec_entries comp (sortedKeys comp)

/-- The serialization loop of `write_mat_string`, generalized over the start
index: folding the body over the enumerated tail appends the tail's entry
block to the accumulator. -/
lemma mat_fold (comp : List (ℕ × ℚ)) (n : ℕ) (ks : List ℕ) (i : ℕ) (acc : String)
    (hlen : i + ks.length = n) :
    (List.enumFrom i ks).foldl (fun s p =>
      let v := (dget comp p.2).getD 0
      if |v| = 0 then s
      else s ++ matLine p.2 v ++ (if p.1 < n - 1 then "\n" else "")) acc
    = acc ++ spec_entries comp ks := by
  induction ks generalizing i acc with
  | nil => simp [spec_entries, str_append_empty]
  | cons k rest ih =>
    cases rest with
    | nil =>
      simp only [List.length_cons, List.length_nil] at hlen
      have hnot : ¬ (i < n - 1) := by omega
      rw [List.enumFrom_cons, List.foldl_cons, List.enumFrom_nil, List.foldl_nil]
      by_cases hv : ((dget comp k).getD 0) = 0
      · have hstep : (let v := (dget comp (i, k).2).getD 0
            if |v| = 0 then acc
            else acc ++ matLine (i, k).2 v ++ (if (i, k).1 < n - 1 then "\n" else ""))
            = acc := by
          simp [hv]
        rw [hstep, show spec_entries comp [k]
          = if (dget comp k).getD 0 = 0 then "" else matLine k ((dget comp k).getD 0)
          from rfl, if_pos hv, str_append_empty]
      · have habs : ¬ (|(dget comp k).getD 0| = 0) := by simpa [abs_eq_zero] using hv
        have hstep : (let v := (dget comp (i, k).2).getD 0
            if |v| = 0 then acc
            else acc ++ matLine (i, k).2 v ++ (if (i, k).1 < n - 1 then "\n" else ""))
            = acc ++ matLine k ((dget comp k).getD 0) := by
          simp [habs, hnot, str_append_empty]
        rw [hstep, show spec_entries comp [k]
          = if (dget comp k).getD 0 = 0 then "" else matLine k ((dget comp k).getD 0)
          from rfl, if_neg hv]
    | cons k2 rest2 =>
      simp only [List.length_cons] at hlen
      have hyes : i < n - 1 := by omega
      rw [List.enumFrom_cons, List.foldl_cons]
      by_cases hv : ((dget comp k).getD 0) = 0
      · have hstep : (let v := (dget comp (i, k).2).getD 0
            if |v| = 0 then acc
            else acc ++ matLine (i, k).2 v ++ (if (i, k).1 < n - 1 then "\n" else ""))
            = acc := by
          simp [hv]
        rw [hstep, ih (i + 1) acc (by simp only [List.length_cons] at hlen ⊢; omega),
          show spec_entries comp (k :: k2 :: rest2)
            = (if (dget comp k).getD 0 = 0 then ""
               else matLine k ((dget comp k).getD 0) ++ "\n")
              ++ spec_entries comp (k2 :: rest2) from rfl,
          if_pos hv, str_empty_append]
      · have habs : ¬ (|(dget comp k).getD 0| = 0) := by simpa [abs_eq_zero] using hv
        have hstep : (let v := (dget comp (i, k).2).getD 0
            if |v| = 0 then acc
            else acc ++ matLine (i, k).2 v ++ (if (i, k).1 < n - 1 then "\n" else ""))
            = acc ++ matLine k ((dget comp k).getD 0) ++ "\n" := by
          simp [habs, hyes]
        rw [hstep,
          ih (i + 1) (acc ++ matLine k ((dget comp k).getD 0) ++ "\n")
            (by simp only [List.length_cons] at hlen ⊢; omega),
          show spec_entries comp (k :: k2 :: rest2)
            = (if (dget comp k).getD 0 = 0 then ""
               else matLine k ((dget comp k).getD 0) ++ "\n")
              ++ spec_entries comp (k2 :: rest2) from rfl,
          if_neg hv]
        simp only [str_append_assoc]



/-- Ordered insertion permutes to consing. -/
lemma insertSorted_perm (a : ℕ) (l : List ℕ) :
    List.Perm (insertSorted a l) (a :: l) := by
  induction l with
  | nil => exact List.Perm.refl _
  | cons b rest ih =>
    simp only [insertSorted]
    split
    next => exact List.Perm.refl _
    next => exact (List.Perm.cons b ih).trans (List.Perm.swap a b rest)

/-- Ordered insertion preserves sortedness. -/
lemma insertSorted_sorted (a : ℕ) (l : List ℕ) (h : l.Sorted (· ≤ ·)) :
    (insertSorted a l).Sorted (· ≤ ·) := by
  induction l with
  | nil => simp [insertSorted]
  | cons b rest ih =>
    rw [List.sorted_cons] at h
    simp only [insertSorted]
    split
    next hab =>
      rw [List.sorted_cons]
      refine ⟨?_, ?_⟩
      · intro x hx
        rcases List.mem_cons.1 hx with rfl | hx2
        · exact hab
        · exact le_trans hab (h.1 x hx2)
      · rw [List.sorted_cons]
        exact h
    next hab =>
      rw [List.sorted_cons]
      refine ⟨?_, ih h.2⟩
      intro x hx
      have hmem : x ∈ a :: rest := (insertSorted_perm a rest).mem_iff.1 hx
      rcases List.mem_cons.1 hmem with rfl | hx2
      · exact le_of_not_le hab
      · exact h.1 x hx2

/-- `sorted()` permutes its input. -/
lemma pysorted_perm (l : List ℕ) : List.Perm (pysorted l) l := by
  induction l with
  | nil => exact List.Perm.refl _
  | cons a rest ih =>
    simp only [pysorted, List.foldr_cons]
    exact (insertSorted_perm _ _).trans (List.Perm.cons a ih)

/-- `sorted()` sorts ascending. -/
lemma pysorted_sorted (l : List ℕ) : (pysorted l).Sorted (· ≤ ·) := by
  induction l with
  | nil => simp [pysorted]
  | cons a rest ih =>
    simp only [pysorted, List.foldr_cons] at ih ⊢
    exact insertSorted_sorted a _ ih

/-- The serialization loop equals the amended material-card specification. -/
lemma mat_string_eq_spec (comp : List (ℕ × ℚ)) :
    mat_string comp = mat_card_spec comp := by
  simp only [mat_string, mat_card_spec]
  exact mat_fold comp (sortedKeys comp).length (sortedKeys comp) 0 "m1\n" (by simp)

/-- C7 amended: `write_mat_string` serializes deterministically (it is a pure
function of the composition), in strictly ascending isotope order (for
distinct keys), excluding zero-valued entries, each entry formatted by
`matLine` (identifier plus negative-signed 5-digit scientific mass fraction);
a serialized entry is followed by a line break unless its isotope occupies
the final position of the sorted key list — so when the last sorted isotope
has value zero, the final serialized entry is still followed by a line
break. -/
theorem c7_amended_serialization (comp : List (ℕ × ℚ))
    (hnd : (comp.map Prod.fst).Nodup) :
    mat_string comp = mat_card_spec comp ∧
    List.Sorted (· < ·) (sortedKeys comp) := by
  refine ⟨mat_string_eq_spec comp, ?_⟩
  have hperm := pysorted_perm (comp.map Prod.fst)
  have hnd2 : (pysorted (comp.map Prod.fst)).Nodup := (hperm.nodup_iff).2 hnd
  exact (pysorted_sorted (comp.map Prod.fst)).lt_of_le hnd2

/-- C7 amended witness: a two-isotope composition with distinct keys. -/
theorem c7_amended_witness :
    mat_string [(92000, 1/2), (8016, 1/4)] = mat_card_spec [(92000, 1/2), (8016, 1/4)] ∧
    List.Sorted (· < ·) (sortedKeys [(92000, 1/2), (8016, 1/4)]) :=
  c7_amended_serialization [(92000, 1/2), (8016, 1/4)] (by simp)

/-- C7 counterexample: with composition `{8016: 0.5, 92000: 0}` the single
serialized entry (isotope 8016) is followed by a line break — the skipped
zero-valued isotope 92000 occupies the last sorted position, so the
"no line break after the last entry" rule is violated: the card ends in a
newline character. -/
theorem c7_counterexample :
    mat_string [(8016, 1/2), (92000, 0)] = "m1\n" ++ matLine 8016 (1/2) ++ "\n" ∧
    (mat_string [(8016, 1/2), (92000, 0)]).data.getLast? = some '\n' := by
  have hv : ¬ ((1/2 : ℚ) = 0) := by norm_num
  have heq : mat_string [(8016, 1/2), (92000, 0)] = "m1\n" ++ matLine 8016 (1/2) ++ "\n" := by
    rw [mat_string_eq_spec]
    simp only [mat_card_spec]
    rw [show sortedKeys [(8016, (1/2 : ℚ)), (92000, 0)] = [8016, 92000] from rfl]
    rw [show spec_entries [(8016, (1/2 : ℚ)), (92000, 0)] [8016, 92000]
      = (if (1/2 : ℚ) = 0 then "" else matLine 8016 (1/2) ++ "\n")
        ++ (if (0 : ℚ) = 0 then "" else matLine 92000 0) from rfl]
    rw [if_neg hv, if_pos rfl, str_append_empty, str_append_assoc]
  refine ⟨heq, ?_⟩
  rw [heq]
  have hdata : ("m1\n" ++ matLine 8016 (1/2) ++ "\n").data
      = ("m1\n" ++ matLine 8016 (1/2)).data ++ ['\n'] := by
    rw [String.data_append]
  rw [hdata, List.getLast?_concat]


end FuelFraction
